import Mathlib

/-!
Verification development for the KBB vehicle-data scraper pipeline.

Shallow embedding of the pure computational core of the repository:
value parsing (`kbb_scraper/parsers/value_parser.py`), the table parser
(`kbb_scraper/parsers/data_parser.py`), the schema transformer
(`kbb_scraper/transformers/schema_transformer.py`), the four-table data
model (`kbb_scraper/models/db_schema.py`), the CSV exporter
(`kbb_scraper/exporters/csv_exporter.py`), the page classifier and tab
switcher (`kbb_scraper/scrapers/kbb_scraper.py`), and the worker-output
CSV merge (`run_parallel.py`).

Python strings are modelled as `List Char` (or as `List Nat` of Unicode
code points where byte-level hashing is involved); Python `dict` rows are
association lists; file states are `Option` of row lists (`none` = the
file does not exist); code that can raise an exception is modelled with
`Except`/`Option`.
-/

namespace KBB

deriving instance DecidableEq for Except

/-! ## value_parser.generate_vehicle_id: MD5 and the 63-bit vehicle id

`generate_vehicle_id` builds the key `f"{brand}|{model}|{year}|{trim}|{body_type}".lower()`,
MD5-hashes its UTF-8 encoding, and masks the big-endian value of the first
8 digest bytes to 63 bits.  MD5 is embedded in full (RFC 1321), with
32-bit words as `Nat` reduced `% 2^32`.
-/

/-- Reduce a natural number to a 32-bit word. -/
def m32 (x : Nat) : Nat := x % 4294967296

/-- Left-rotation of a 32-bit word by `s` bits. -/
def rotl32 (x s : Nat) : Nat := ((x <<< s) % 4294967296) ||| (x >>> (32 - s))

/-- Bitwise complement on 32-bit words. -/
def compl32 (x : Nat) : Nat := 4294967295 ^^^ x

/-- The 64 MD5 sine-table constants `K[i]`. -/
def md5K : List Nat :=
  [0xd76aa478, 0xe8c7b756, 0x242070db, 0xc1bdceee,
   0xf57c0faf, 0x4787c62a, 0xa8304613, 0xfd469501,
   0x698098d8, 0x8b44f7af, 0xffff5bb1, 0x895cd7be,
   0x6b901122, 0xfd987193, 0xa679438e, 0x49b40821,
   0xf61e2562, 0xc040b340, 0x265e5a51, 0xe9b6c7aa,
   0xd62f105d, 0x02441453, 0xd8a1e681, 0xe7d3fbc8,
   0x21e1cde6, 0xc33707d6, 0xf4d50d87, 0x455a14ed,
   0xa9e3e905, 0xfcefa3f8, 0x676f02d9, 0x8d2a4c8a,
   0xfffa3942, 0x8771f681, 0x6d9d6122, 0xfde5380c,
   0xa4beea44, 0x4bdecfa9, 0xf6bb4b60, 0xbebfbc70,
   0x289b7ec6, 0xeaa127fa, 0xd4ef3085, 0x04881d05,
   0xd9d4d039, 0xe6db99e5, 0x1fa27cf8, 0xc4ac5665,
   0xf4292244, 0x432aff97, 0xab9423a7, 0xfc93a039,
   0x655b59c3, 0x8f0ccc92, 0xffeff47d, 0x85845dd1,
   0x6fa87e4f, 0xfe2ce6e0, 0xa3014314, 0x4e0811a1,
   0xf7537e82, 0xbd3af235, 0x2ad7d2bb, 0xeb86d391]

/-- The 64 MD5 per-round shift amounts `s[i]`. -/
def md5S : List Nat :=
  [7, 12, 17, 22, 7, 12, 17, 22, 7, 12, 17, 22, 7, 12, 17, 22,
   5, 9, 14, 20, 5, 9, 14, 20, 5, 9, 14, 20, 5, 9, 14, 20,
   4, 11, 16, 23, 4, 11, 16, 23, 4, 11, 16, 23, 4, 11, 16, 23,
   6, 10, 15, 21, 6, 10, 15, 21, 6, 10, 15, 21, 6, 10, 15, 21]

/-- The MD5 round function for round `i`. -/
def md5F (i b c d : Nat) : Nat :=
  if i < 16 then (b &&& c) ||| (compl32 b &&& d)
  else if i < 32 then (d &&& b) ||| (compl32 d &&& c)
  else if i < 48 then b ^^^ c ^^^ d
  else c ^^^ (b ||| compl32 d)

/-- The MD5 message-word index for round `i`. -/
def md5G (i : Nat) : Nat :=
  if i < 16 then i
  else if i < 32 then (5 * i + 1) % 16
  else if i < 48 then (3 * i + 5) % 16
  else (7 * i) % 16

/-- Little-endian 32-bit word `g` of a 64-byte chunk. -/
def md5Word (chunk : List Nat) (g : Nat) : Nat :=
  chunk.getD (4 * g) 0 + 256 * chunk.getD (4 * g + 1) 0 +
    65536 * chunk.getD (4 * g + 2) 0 + 16777216 * chunk.getD (4 * g + 3) 0

/-- One of the 64 MD5 state-update operations. -/
def md5Step (chunk : List Nat) (st : Nat × Nat × Nat × Nat) (i : Nat) :
    Nat × Nat × Nat × Nat :=
  let a := st.1; let b := st.2.1; let c := st.2.2.1; let d := st.2.2.2
  let f := m32 (md5F i b c d + a + md5K.getD i 0 + md5Word chunk (md5G i))
  (d, m32 (b + rotl32 f (md5S.getD i 0)), b, c)

/-- Process one 64-byte chunk: run the 64 operations and add the result
to the incoming state, word-wise mod `2^32`. -/
def md5Chunk (st : Nat × Nat × Nat × Nat) (chunk : List Nat) :
    Nat × Nat × Nat × Nat :=
  let r := (List.range 64).foldl (md5Step chunk) st
  (m32 (st.1 + r.1), m32 (st.2.1 + r.2.1),
   m32 (st.2.2.1 + r.2.2.1), m32 (st.2.2.2 + r.2.2.2))

/-- Little-endian 8-byte encoding of a 64-bit length value. -/
def le64 (n : Nat) : List Nat :=
  [n % 256, (n >>> 8) % 256, (n >>> 16) % 256, (n >>> 24) % 256,
   (n >>> 32) % 256, (n >>> 40) % 256, (n >>> 48) % 256, (n >>> 56) % 256]

/-- Little-endian 4-byte encoding of a 32-bit word. -/
def le32bytes (n : Nat) : List Nat :=
  [n % 256, (n >>> 8) % 256, (n >>> 16) % 256, (n >>> 24) % 256]

/-- MD5 padding: `0x80`, zeros to 56 mod 64, then the bit length (LE, 64-bit). -/
def md5Pad (msg : List Nat) : List Nat :=
  msg ++ 128 :: List.replicate ((119 - msg.length % 64) % 64) 0 ++
    le64 ((8 * msg.length) % 18446744073709551616)

/-- Split a byte list into 64-byte chunks (fuel-indexed so that the
recursion is structural; `fuel = l.length` always suffices). -/
def chunks64Go : Nat → List Nat → List (List Nat)
  | 0, _ => []
  | fuel + 1, l => if l = [] then [] else l.take 64 :: chunks64Go fuel (l.drop 64)

/-- Split a byte list into 64-byte chunks. -/
def chunks64 (l : List Nat) : List (List Nat) := chunks64Go l.length l

/-- The full MD5 digest (16 bytes) of a byte string. -/
def md5 (msg : List Nat) : List Nat :=
  let r := (chunks64 (md5Pad msg)).foldl md5Chunk
    (0x67452301, 0xefcdab89, 0x98badcfe, 0x10325476)
  le32bytes r.1 ++ le32bytes r.2.1 ++ le32bytes r.2.2.1 ++ le32bytes r.2.2.2

/-- ASCII lowercasing of one code point (the effect of Python `str.lower`
on the characters that occur in vehicle keys). -/
def lowerCode (n : Nat) : Nat := if 65 ≤ n ∧ n ≤ 90 then n + 32 else n

/-- Python `str.lower` on a string of code points. -/
def pyLower (s : List Nat) : List Nat := s.map lowerCode

/-- UTF-8 encoding of one code point (Python `str.encode()`). -/
def utf8Bytes (n : Nat) : List Nat :=
  if n < 128 then [n]
  else if n < 2048 then [192 ||| (n >>> 6), 128 ||| (n &&& 63)]
  else if n < 65536 then
    [224 ||| (n >>> 12), 128 ||| ((n >>> 6) &&& 63), 128 ||| (n &&& 63)]
  else
    [240 ||| (n >>> 18), 128 ||| ((n >>> 12) &&& 63),
     128 ||| ((n >>> 6) &&& 63), 128 ||| (n &&& 63)]

/-- UTF-8 encoding of a string of code points. -/
def encodeUtf8 (s : List Nat) : List Nat := s.flatMap utf8Bytes

/-- Decimal digit code points of a natural number (fuel-indexed so that
the recursion is structural; `fuel = n` always suffices). -/
def natCodesGo : Nat → Nat → List Nat
  | 0, n => [48 + n]
  | fuel + 1, n =>
    if n < 10 then [48 + n] else natCodesGo fuel (n / 10) ++ [48 + n % 10]

/-- Decimal digit code points of a natural number (Python `str(n)`). -/
def natCodes (n : Nat) : List Nat := natCodesGo n n

/-- Decimal code points of a Python integer (`f"{year}"`). -/
def intCodes (y : Int) : List Nat :=
  match y with
  | .ofNat n => natCodes n
  | .negSucc n => 45 :: natCodes (n + 1)

/-- Big-endian value of a byte list (`int.from_bytes(b, byteorder='big')`). -/
def beBytesToNat (l : List Nat) : Nat := l.foldl (fun a b => 256 * a + b) 0

/-- The `value_parser.generate_vehicle_id`: the composite key
`f"{brand}|{model}|{year}|{trim}|{body_type}".lower()` is UTF-8 encoded,
MD5-hashed, and the big-endian value of the first 8 digest bytes is masked
with `0x7FFFFFFFFFFFFFFF`.  Code point 124 is the pipe separator. -/
def generate_vehicle_id (brand model : List Nat) (year : Int)
    (trim body_type : List Nat) : Nat :=
  let key := pyLower
    (brand ++ 124 :: model ++ 124 :: intCodes year ++ 124 :: trim ++
      124 :: body_type)
  let hash_bytes := md5 (encodeUtf8 key)
  beBytesToNat (hash_bytes.take 8) &&& 0x7FFFFFFFFFFFFFFF

/-! ## value_parser.parse_fuel_economy

The function tries five regular-expression patterns in order:
1. `City\s*(\d+)` / `Hwy\s*(\d+)` / `Comb(?:ined)?\s*(\d+)` searched
   anywhere in the value (case-insensitive);
2. `(\d+)\s*MPGe` matched at the start of the stripped value;
3. `([\d.]+)\s*kWh\s*/\s*100\s*mi` matched at the start, converted by
   `int(3370 / kwh)` evaluated in IEEE binary64 arithmetic — `float()`
   is CPython's correctly rounded decimal-to-double conversion and `/`
   is the correctly rounded double division, both embedded exactly below
   as `roundFrac` over integer arithmetic (a `ValueError` from `float()`
   propagates, and so does the `OverflowError` of `int()` on an infinite
   quotient: both modelled by `Except.error`);
4. `(\d+)\s*(?:mpg)\b` matched at the start;
5. a bare integer, accepted only in the range 5..200.

Regular expressions here never need backtracking (every quantified class
is disjoint from the character that follows it), so each is embedded as
a maximal-munch matcher.  Code points: c=99 i=105 t=116 y=121 h=104
w=119 m=109 p=112 g=103 e=101 k=107 b=98 n=110 o=111 d=100 '/'=47 '.'=46
'0'=48 '1'=49 space=32.
-/

/-- Code points of a Lean string literal (for concrete test inputs). -/
def strCodes (s : String) : List Nat := s.data.map Char.toNat

/-- Python's `\s` class (ASCII part), as used by `str.strip` and `\s*`. -/
def pyIsSpace (n : Nat) : Bool :=
  decide (n = 32 ∨ n = 9 ∨ n = 10 ∨ n = 13 ∨ n = 11 ∨ n = 12)

/-- The `\d` class (ASCII digits). -/
def isDigitCode (n : Nat) : Bool := decide (48 ≤ n ∧ n ≤ 57)

/-- The `\w` class (ASCII part), for the `\b` word-boundary test. -/
def isWordCode (n : Nat) : Bool :=
  isDigitCode n || decide (65 ≤ n ∧ n ≤ 90) || decide (97 ≤ n ∧ n ≤ 122) ||
    decide (n = 95)

/-- Python `str.strip()`. -/
def pyStrip (s : List Nat) : List Nat :=
  ((s.dropWhile pyIsSpace).reverse.dropWhile pyIsSpace).reverse

/-- Case-insensitive match of a literal pattern fragment (given in lower
case) at the head of the input; returns the remainder on success. -/
def matchLit : List Nat → List Nat → Option (List Nat)
  | [], s => some s
  | _ :: _, [] => none
  | p :: ps, c :: cs => if lowerCode c = p then matchLit ps cs else none

/-- Numeric value of a digit-code string (`int(...)`). -/
def digitsVal (ds : List Nat) : Nat :=
  ds.foldl (fun a c => 10 * a + (c - 48)) 0

/-- Match `\s*(\d+)` at the head of the input. -/
def wsDigits (s : List Nat) : Option Nat :=
  let ds := (s.dropWhile pyIsSpace).takeWhile isDigitCode
  if ds.isEmpty then none else some (digitsVal ds)

/-- Match `kw` then `\s*(\d+)` at the head of the input. -/
def numAt (kw : List Nat) (s : List Nat) : Option Nat :=
  (matchLit kw s).bind wsDigits

/-- The `re.search(kw + r'\s*(\d+)', value, re.IGNORECASE)`: earliest
position wins. -/
def searchNumAfter (kw : List Nat) : List Nat → Option Nat
  | [] => numAt kw []
  | c :: cs =>
    match numAt kw (c :: cs) with
    | some n => some n
    | none => searchNumAfter kw cs

/-- Match `Comb(?:ined)?\s*(\d+)` at the head of the input (the greedy
option tries `ined` first, then falls back). -/
def combAt (s : List Nat) : Option Nat :=
  (matchLit [99, 111, 109, 98] s).bind fun rest =>
    match numAt [105, 110, 101, 100] rest with
    | some n => some n
    | none => wsDigits rest

/-- The `re.search(r'Comb(?:ined)?\s*(\d+)', value, re.IGNORECASE)`. -/
def searchComb : List Nat → Option Nat
  | [] => combAt []
  | c :: cs =>
    match combAt (c :: cs) with
    | some n => some n
    | none => searchComb cs

/-- The `re.match(r'(\d+)\s*MPGe', s, re.IGNORECASE)` (pattern 2). -/
def matchMPGe (s : List Nat) : Option Nat :=
  let ds := s.takeWhile isDigitCode
  if ds.isEmpty then none
  else
    let rest := (s.dropWhile isDigitCode).dropWhile pyIsSpace
    if (matchLit [109, 112, 103, 101] rest).isSome then some (digitsVal ds)
    else none

/-- The `[\d.]` class of pattern 3. -/
def isDigitOrDot (n : Nat) : Bool := isDigitCode n || decide (n = 46)

/-- The `re.match(r'([\d.]+)\s*kWh\s*/\s*100\s*mi', s, re.IGNORECASE)`
(pattern 3); returns the captured `[\d.]+` token. -/
def kwhTok (s : List Nat) : Option (List Nat) :=
  let tok := s.takeWhile isDigitOrDot
  if tok.isEmpty then none
  else
    let r1 := (s.dropWhile isDigitOrDot).dropWhile pyIsSpace
    (matchLit [107, 119, 104] r1).bind fun r2 =>
      let r3 := r2.dropWhile pyIsSpace
      (matchLit [47] r3).bind fun r4 =>
        let r5 := r4.dropWhile pyIsSpace
        (matchLit [49, 48, 48] r5).bind fun r6 =>
          let r7 := r6.dropWhile pyIsSpace
          (matchLit [109, 105] r7).map fun _ => tok

/-- Python `float()` on a `[\d.]+` token: `none` models `ValueError`.
A valid token has at most one dot and at least one digit; the value is
`mantissa / 10 ^ fracDigits`. -/
def pyFloatDec (tok : List Nat) : Option (Nat × Nat) :=
  let ip := tok.takeWhile isDigitCode
  match tok.dropWhile isDigitCode with
  | [] => if ip.isEmpty then none else some (digitsVal ip, 0)
  | 46 :: frac =>
    if frac.all isDigitCode && !(ip.isEmpty && frac.isEmpty) then
      some (digitsVal (ip ++ frac), frac.length)
    else none
  | _ => none

/-- The `re.match(r'(\d+)\s*(?:mpg)\b', s, re.IGNORECASE)` (pattern 4). -/
def matchSimpleMpg (s : List Nat) : Option Nat :=
  let ds := s.takeWhile isDigitCode
  if ds.isEmpty then none
  else
    match matchLit [109, 112, 103] ((s.dropWhile isDigitCode).dropWhile pyIsSpace) with
    | none => none
    | some [] => some (digitsVal ds)
    | some (c :: _) => if isWordCode c then none else some (digitsVal ds)

/-- Patterns 4 and 5 (reached when patterns 1-3 produced nothing):
plain `N MPG`, else a bare integer accepted only if `5 <= n <= 200`. -/
def fePat45 (s : List Nat) : Option Nat :=
  match matchSimpleMpg s with
  | some n => some n
  | none =>
    if !s.isEmpty && s.all isDigitCode then
      let num := digitsVal s
      if 5 ≤ num ∧ num ≤ 200 then some num else none
    else none

/-! ### Exact embedding of IEEE binary64 for the kWh branch

Pattern 3 computes `int(3370 / float(tok))` in Python, i.e. in IEEE
double precision.  A nonnegative finite double is a dyadic rational
`sig * 2 ^ exp`; conversion from a decimal token and the division are
both round-to-nearest-ties-to-even of the exact rational value, with
subnormals below `2 ^ -1022` and overflow to `+inf` at `2 ^ 1024`.
Everything is computed in plain natural-number arithmetic. -/

/-- Fuel-driven `⌊log2 n⌋` (any `fuel ≥ n` gives the true value). -/
def natLog2Go : Nat → Nat → Nat
  | 0, _ => 0
  | fuel + 1, n => if n ≤ 1 then 0 else natLog2Go fuel (n / 2) + 1

/-- The `⌊log2 n⌋` for `1 ≤ n` (and `0` at `0`). -/
def natLog2 (n : Nat) : Nat := natLog2Go n n

/-- Round the fraction `a / b` to the nearest integer, ties to even. -/
def rneFrac (a b : Nat) : Nat :=
  let q := a / b
  let r := a % b
  if 2 * r < b then q
  else if b < 2 * r then q + 1
  else if q % 2 = 0 then q else q + 1

/-- Decides `2 ^ e ≤ a / b` for an integer exponent `e`, by clearing
denominators (no rational arithmetic). -/
def pow2le (e : Int) (a b : Nat) : Bool :=
  if 0 ≤ e then b * 2 ^ e.toNat ≤ a else b ≤ a * 2 ^ (-e).toNat

/-- The binade exponent of `a / b` (for `1 ≤ a`, `1 ≤ b`): the unique
`e` with `2 ^ e ≤ a / b < 2 ^ (e + 1)`. -/
def fracExp (a b : Nat) : Int :=
  let e0 : Int := (natLog2 a : Int) - (natLog2 b : Int) - 1
  if pow2le (e0 + 1) a b then e0 + 1 else e0

/-- Round the nonnegative fraction `a / b` (with `1 ≤ b`) to an IEEE
binary64 value `(sig, exp)` of value `sig * 2 ^ exp`; `none` is overflow
to `+inf`.  Round-to-nearest, ties-to-even, with subnormal results on the
`2 ^ -1074` grid.  This is exactly CPython's correctly rounded `float()`
on a decimal token (`a / b = mantissa / 10 ^ fracDigits`) and, applied
to an exact quotient of doubles, the IEEE double division. -/
def roundFrac (a b : Nat) : Option (Nat × Int) :=
  if a = 0 then some (0, 0)
  else
    let e := fracExp a b
    if e < -1022 then some (rneFrac (a * 2 ^ 1074) b, -1074)
    else
      let sig := if e ≤ 52 then rneFrac (a * 2 ^ (52 - e).toNat) b
                 else rneFrac a (b * 2 ^ (e - 52).toNat)
      if 1023 < e ∨ (e = 1023 ∧ sig = 2 ^ 53) then none
      else some (sig, e - 52)

/-- The IEEE binary64 quotient `3370 / k` for a positive finite double
`k = sg * 2 ^ e` (`3370` is exactly representable, and IEEE division is
the correct rounding of the exact quotient, here written as one integer
fraction). -/
def div3370 (sg : Nat) (e : Int) : Option (Nat × Int) :=
  if 0 ≤ e then roundFrac 3370 (sg * 2 ^ e.toNat)
  else roundFrac (3370 * 2 ^ (-e).toNat) sg

/-- Python `int()` of the nonnegative finite double `sg * 2 ^ e`:
truncation toward zero, which for a nonnegative value is the floor. -/
def dfloor (sg : Nat) (e : Int) : Nat :=
  if 0 ≤ e then sg * 2 ^ e.toNat else sg / 2 ^ (-e).toNat

/-- The `value_parser.parse_fuel_economy`.  Returns `(city, highway, combined)`;
`Except.error ()` models an uncaught exception: the `ValueError` that
`float()` raises on a malformed `[\d.]+` token in pattern 3, or the
`OverflowError` that `int()` raises when `3370 / kwh` overflows to
`+inf` (a subnormal `kwh`).  A token whose `float()` value overflows to
`+inf` passes the `> 0` test and yields `int(3370 / inf) = 0`. -/
def parse_fuel_economy (value : List Nat) :
    Except Unit (Option Nat × Option Nat × Option Nat) :=
  if value.isEmpty then .ok (none, none, none)
  else
    let city := searchNumAfter [99, 105, 116, 121] value
    let highway := searchNumAfter [104, 119, 121] value
    let combined := searchComb value
    if city.isSome || highway.isSome || combined.isSome then
      .ok (city, highway, combined)
    else
      let s := pyStrip value
      match matchMPGe s with
      | some n => .ok (none, none, some n)
      | none =>
        match kwhTok s with
        | some tok =>
          match pyFloatDec tok with
          | none => .error ()
          | some (m, f) =>
            match roundFrac m (10 ^ f) with
            | none => .ok (none, none, some 0)
            | some (sg, e) =>
              if 0 < sg then
                match div3370 sg e with
                | none => .error ()
                | some (s2, e2) => .ok (none, none, some (dfloor s2 e2))
              else .ok (none, none, fePat45 s)
        | none => .ok (none, none, fePat45 s)

/-! ## kbb_scraper._is_blocked and navigate_to_car_model (page classifier)

The selenium surface is abstracted into a `PageObs` snapshot: the page
source, the title, the resolved URL, whether the `<body>` wait succeeded,
whether the `compare-trim-tables` element appeared within its wait, and
how many generic `<table>` elements exist.  A wait timeout raising
`TimeoutException` that the code converts into a return value is modelled
by the corresponding boolean being false.
-/

/-- Case-sensitive prefix test on code-point strings. -/
def startsWithCodes : List Nat → List Nat → Bool
  | [], _ => true
  | _ :: _, [] => false
  | p :: ps, c :: cs => decide (p = c) && startsWithCodes ps cs

/-- Python's `in` on strings: substring occurrence. -/
def containsSub (pat : List Nat) : List Nat → Bool
  | [] => pat.isEmpty
  | c :: cs => startsWithCodes pat (c :: cs) || containsSub pat cs

/-- The fixed `_BLOCK_INDICATORS` phrase list of `kbb_scraper.py`. -/
def _BLOCK_INDICATORS : List (List Nat) :=
  [strCodes "access denied",
   strCodes "please verify you are a human",
   strCodes "are you a robot",
   strCodes "captcha",
   strCodes "unusual traffic",
   strCodes "too many requests",
   strCodes "rate limit",
   strCodes "blocked",
   strCodes "security check",
   strCodes "pardon our interruption",
   strCodes "just a moment",
   strCodes "checking your browser",
   strCodes "enable javascript and cookies"]

/-- The `kbb_scraper._is_blocked`: some indicator occurs in the lowercased
`title + " " + page_source[:5000]` (code point 32 is the space). -/
def _is_blocked (page_source title : List Nat) : Bool :=
  let combined := pyLower (title ++ 32 :: page_source.take 5000)
  _BLOCK_INDICATORS.any fun ind => containsSub ind combined

/-- The four outcomes of `navigate_to_car_model`. -/
inductive NavResult where
  | specs
  | overview
  | not_found
  | blocked
deriving DecidableEq

/-- Snapshot of the page state observed during one navigation. -/
structure PageObs where
  page_source : List Nat
  title : List Nat
  current_url : List Nat
  body_present : Bool
  compare_tables_present : Bool
  table_count : Nat
deriving DecidableEq

/-- Python `str.rstrip('/')`. -/
def rstripSlashes (s : List Nat) : List Nat :=
  (s.reverse.dropWhile fun c => decide (c = 47)).reverse

/-- Case-sensitive suffix test on code-point strings. -/
def endsWithCodes (suffix s : List Nat) : Bool :=
  startsWithCodes suffix.reverse s.reverse

/-- The `KBBResearchScraper.navigate_to_car_model`, as a classifier over one
page observation.  The checks run in source order: block page, 404 /
"Page Not Found", body element, `/specs` URL suffix, the
`compare-trim-tables` wait with the generic-table fallback. -/
def navigate_to_car_model (p : PageObs) : NavResult :=
  if _is_blocked p.page_source p.title then .blocked
  else if containsSub (strCodes "404") p.title ||
      containsSub (strCodes "Page Not Found") p.page_source then .not_found
  else if !p.body_present then .not_found
  else if !endsWithCodes (strCodes "/specs") (rstripSlashes p.current_url) then
    .overview
  else if p.compare_tables_present then .specs
  else if p.table_count > 0 then .specs
  else .not_found

/-! ## kbb_scraper.select_body_type (tab switcher)

The element search over the five XPath strategies is abstracted into its
three possible outcomes; the content-change poll loop receives the list
of signatures observed at the successive poll instants (at most 20 of
them: `max_wait = 10` seconds at `wait_interval = 0.5`). -/

/-- Outcome of the selector-strategy loop of `select_body_type`: an
element with `aria-selected="true"` was found; a displayed and enabled
element was clicked; or nothing matched (or an error occurred). -/
inductive ClickOutcome where
  | alreadySelected
  | clicked
  | notFound
deriving DecidableEq

/-- The content-change poll loop: succeed as soon as a non-empty
signature differs from the old one; when the bounded samples run out
(`waited >= max_wait`), the code still returns `True`. -/
def waitForChange (old_signature : String) : List String → Bool
  | [] => true
  | s :: rest =>
    if s ≠ "" ∧ s ≠ old_signature then true else waitForChange old_signature rest

/-- The `KBBResearchScraper.select_body_type`. -/
def select_body_type (outcome : ClickOutcome) (old_signature : String)
    (sigs : List String) : Bool :=
  match outcome with
  | .alreadySelected => true
  | .clicked => waitForChange old_signature sigs
  | .notFound => false

/-! ## csv_exporter.CsvExporter: append_to_csv and _load_existing_keys

A CSV row is a Python dict, modelled as an association list from column
name to string value (the five natural-key columns hold strings
throughout the pipeline).  The file state is `none` when the file does
not exist, otherwise the list of persisted rows; `DictWriter` with
`fieldnames=FIXED_COLUMNS`, `extrasaction="ignore"` and the default
`restval=""` persists exactly the restriction of a row to the fixed
schema, which is what `DictReader` later yields. -/

/-- A CSV row dict. -/
abbrev Row := List (String × String)

/-- The `(make, model, year, bodytype, trim)` natural-key tuple. -/
abbrev CsvKey := String × String × String × String × String

/-- The `row.get(k, "")`. -/
def rowGet (r : Row) (k : String) : String := (r.lookup k).getD ""

/-- The `tuple(row.get(k, "") for k in _DEDUP_KEYS)`. -/
def rowKey (r : Row) : CsvKey :=
  (rowGet r "make", rowGet r "model", rowGet r "year",
   rowGet r "bodytype", rowGet r "trim")

/-- The fixed, versioned column schema `FIXED_COLUMNS`. -/
def FIXED_COLUMNS : List String :=
  ["make", "model", "year", "bodytype", "trim",
   "price",
   "mpg_city", "mpg_hwy", "mpg_comb",
   "Fuel Type", "hp", "Engine",
   "torque_lbft", "cargo_cuft",
   "0 - 60",
   "curb_weight_lbs",
   "Drivetrain", "Transmission Type", "Recommended Fuel", "Fuel Capacity",
   "Wheel Base", "Overall Length", "Front Head Room", "Front Leg Room",
   "Front Shoulder Room", "Width with mirrors", "Turning Diameter",
   "Blind-Spot Alert", "Collision Warning System",
   "Child Seat Anchors", "Child Door Locks",
   "Traction Control", "Bluetooth Wireless Technology",
   "Cruise Control", "Remote Keyless Entry", "Remote Engine Start",
   "Smartphone Interface", "Internet Access", "Navigation System",
   "Voice Recognition System", "Real-Time Traffic Information",
   "Hands Free Phone", "Premium Radio", "Bluetooth Streaming Audio",
   "Satellite Radio", "Remote Control Liftgate/Trunk Release",
   "Heated Mirrors", "Leather Seats", "Folding Rear Seat",
   "Dual Power Front Seats", "Power Driver's Seat",
   "Leather-Wrapped Steering Wheel", "Power Outlet", "Power Windows",
   "Rear Window Defroster", "Steering Wheel Controls",
   "Tilt Steering Wheel", "Tilt/Telescoping Steering Wheel",
   "Cup Holder Count", "Alloy Wheels", "Fog Lights",
   "Power Folding Exterior Mirrors", "Rear Spoiler",
   "Rain Sensing Windshield Wipers", "Alarm System",
   "Dual-Clutch Automatic Transmission", "Hill Start Assist",
   "Stability Control"]

/-- The `DictWriter.writerow` restricted to a column list (each named column
gets the row's value or the `restval` blank), as later read back by
`DictReader`. -/
def writeRowCols (cols : List String) (r : Row) : Row :=
  cols.map fun c => (c, rowGet r c)

/-- The CSV file on disk: `none` when absent. -/
abbrev CsvFileState := Option (List Row)

/-- The `CsvExporter._load_existing_keys`. -/
def _load_existing_keys (st : CsvFileState) : List CsvKey :=
  match st with
  | none => []
  | some rows => rows.map rowKey

/-- The row-filtering loop of `append_to_csv`: a row is kept only when
its key is neither already persisted nor produced earlier in the same
call (`existing_keys` grows as rows are accepted). -/
def dedupNewRows (existing : List CsvKey) : List Row → List Row
  | [] => []
  | r :: rs =>
    if rowKey r ∈ existing then dedupNewRows existing rs
    else r :: dedupNewRows (rowKey r :: existing) rs

/-- The `CsvExporter.append_to_csv`: load the existing keys, drop duplicate
rows, and append the remainder (creating the file, with its header, when
new rows exist and the file did not). -/
def append_to_csv (st : CsvFileState) (rows : List Row) : CsvFileState :=
  let existing := _load_existing_keys st
  let new_rows := dedupNewRows existing rows
  if new_rows.isEmpty then st
  else some (st.getD [] ++ new_rows.map (writeRowCols FIXED_COLUMNS))

/-- Number of persisted rows carrying a given natural key. -/
def fileCountKey (st : CsvFileState) (k : CsvKey) : Nat :=
  (st.getD []).countP fun r => decide (rowKey r = k)

/-! ## run_parallel._merge_one_csv (worker CSV merge)

A worker CSV is its header (`reader.fieldnames`) plus its rows as
`DictReader` dicts (keyed by that header).  The merge unions the headers
in first-seen order, concatenates all rows, and writes them through a
`DictWriter` over the union header (absent columns become blanks). -/

/-- One worker CSV file. -/
structure CsvFile where
  header : List String
  rows : List Row
deriving DecidableEq

/-- The header-union loop body: append each unseen column. -/
def unionInto (acc : List String) (cols : List String) : List String :=
  cols.foldl (fun a c => if c ∈ a then a else a ++ [c]) acc

/-- Union of all worker headers, first-seen order preserved. -/
def mergeHeaders (files : List CsvFile) : List String :=
  files.foldl (fun acc f => unionInto acc f.header) []

/-- The `run_parallel._merge_one_csv`: `none` when no worker file matches the
glob (nothing is written); otherwise the merged file. -/
def _merge_one_csv (files : List CsvFile) : Option CsvFile :=
  if files.isEmpty then none
  else
    let all_headers := mergeHeaders files
    let all_rows := files.flatMap fun f => f.rows
    some { header := all_headers,
           rows := all_rows.map (writeRowCols all_headers) }

/-! ## data_parser.KBBDataParser

The BeautifulSoup surface is abstracted into cell texts: `parse_table_data`
receives the `thead th` texts (for `_extract_trim_names_raw`) and the
`td` texts of each `tbody tr`.  Strings are code-point lists as above.
-/

/-- Python `str.split()` helper: accumulate the current word (reversed). -/
def splitWsGo (cur : List Nat) : List Nat → List (List Nat)
  | [] => if cur.isEmpty then [] else [cur.reverse]
  | c :: cs =>
    if pyIsSpace c then
      if cur.isEmpty then splitWsGo [] cs else cur.reverse :: splitWsGo [] cs
    else splitWsGo (c :: cur) cs

/-- Python `str.split()` (split on whitespace runs, no empty parts). -/
def pySplitWs (s : List Nat) : List (List Nat) := splitWsGo [] s

/-- The `' '.join(words)`. -/
def joinSpace : List (List Nat) → List Nat
  | [] => []
  | [w] => w
  | w :: ws => w ++ 32 :: joinSpace ws

/-- The `' '.join(s.split())`: collapse whitespace runs. -/
def normWs (s : List Nat) : List Nat := joinSpace (pySplitWs s)

/-- The `re.sub(r'^\d+\.\s*', '', s)`: drop a leading `12.`-style numbering. -/
def stripNumbering (s : List Nat) : List Nat :=
  let ds := s.takeWhile isDigitCode
  if ds.isEmpty then s
  else
    match s.dropWhile isDigitCode with
    | 46 :: rest => rest.dropWhile pyIsSpace
    | _ => s

/-- The `re.sub` removal of all `open...close` delimited groups (fuel-indexed
so that the recursion is structural; `fuel = s.length` always suffices).
A group is removed only when its closing delimiter exists, exactly like
`\([^)]*\)`. -/
def stripDelimGo (openC closeC : Nat) : Nat → List Nat → List Nat
  | 0, s => s
  | _ + 1, [] => []
  | fuel + 1, c :: cs =>
    if c = openC then
      match cs.dropWhile (fun x => decide (x ≠ closeC)) with
      | [] => c :: cs
      | _ :: after => stripDelimGo openC closeC fuel after
    else c :: stripDelimGo openC closeC fuel cs

/-- The `re.sub(r'\(...\)', '', s)` / `re.sub(r'\[...\]', '', s)`. -/
def stripDelim (openC closeC : Nat) (s : List Nat) : List Nat :=
  stripDelimGo openC closeC s.length s

/-- Python `str.replace` (global, left-to-right, non-overlapping;
fuel-indexed so that the recursion is structural). -/
def pyReplaceGo (pat repl : List Nat) : Nat → List Nat → List Nat
  | 0, s => s
  | _ + 1, [] => []
  | fuel + 1, c :: cs =>
    if startsWithCodes pat (c :: cs) then
      repl ++ pyReplaceGo pat repl fuel ((c :: cs).drop pat.length)
    else c :: pyReplaceGo pat repl fuel cs

/-- Python `str.replace(pat, repl)` for a non-empty pattern. -/
def pyReplace (s pat repl : List Nat) : List Nat :=
  pyReplaceGo pat repl s.length s

/-- The ordered replacement table of `_clean_spec_name`. -/
def specNameReplacements : List (List Nat × List Nat) :=
  [(strCodes "MPG", strCodes "Miles Per Gallon"),
   (strCodes "hp", strCodes "Horsepower"),
   (strCodes "lb-ft", strCodes "Torque"),
   (strCodes "lbs", strCodes "Pounds"),
   (strCodes "in.", strCodes "Inches"),
   (strCodes "ft", strCodes "Feet"),
   (strCodes "gal", strCodes "Gallons"),
   (strCodes "L", strCodes "Liters"),
   (strCodes "cyl", strCodes "Cylinders"),
   (strCodes "A/T", strCodes "Automatic Transmission"),
   (strCodes "M/T", strCodes "Manual Transmission"),
   (strCodes "CVT", strCodes "Continuously Variable Transmission")]

/-- The `KBBDataParser._clean_spec_name`. -/
def _clean_spec_name (spec_name : List Nat) : List Nat :=
  if spec_name.isEmpty then []
  else
    let s1 := normWs spec_name
    let s2 := stripNumbering s1
    let s3 := stripDelim 40 41 s2
    let s4 := stripDelim 91 93 s3
    let s5 := specNameReplacements.foldl (fun s pr => pyReplace s pr.1 pr.2) s4
    pyStrip s5

/-- The `KBBDataParser._clean_value`. -/
def _clean_value (value : List Nat) : List Nat :=
  if value.isEmpty then []
  else
    let v := pyStrip value
    if v = strCodes "--" ∨ v = strCodes "N/A" ∨ v = strCodes "Not Available" ∨
        v = [] then []
    else normWs v

/-- The ordered `spec_categories` keyword table. -/
def spec_categories : List (List Nat × List (List Nat)) :=
  [(strCodes "engine", [strCodes "engine", strCodes "horsepower",
      strCodes "torque", strCodes "cylinders", strCodes "displacement"]),
   (strCodes "transmission", [strCodes "transmission", strCodes "gear",
      strCodes "shift"]),
   (strCodes "drivetrain", [strCodes "drivetrain", strCodes "drive",
      strCodes "4wd", strCodes "awd", strCodes "fwd", strCodes "rwd"]),
   (strCodes "fuel", [strCodes "fuel", strCodes "mpg", strCodes "gas",
      strCodes "tank", strCodes "efficiency"]),
   (strCodes "dimensions", [strCodes "length", strCodes "width",
      strCodes "height", strCodes "wheelbase", strCodes "weight",
      strCodes "curb"]),
   (strCodes "capacity", [strCodes "seating", strCodes "cargo",
      strCodes "towing", strCodes "capacity"]),
   (strCodes "brakes", [strCodes "brake", strCodes "disc", strCodes "drum",
      strCodes "abs"]),
   (strCodes "suspension", [strCodes "suspension", strCodes "strut",
      strCodes "shock", strCodes "spring"]),
   (strCodes "tires", [strCodes "tire", strCodes "wheel", strCodes "rim"]),
   (strCodes "performance", [strCodes "acceleration", strCodes "0-60",
      strCodes "top speed", strCodes "horsepower"]),
   (strCodes "features", [strCodes "feature", strCodes "option",
      strCodes "standard", strCodes "premium"])]

/-- The `KBBDataParser._categorize_spec`. -/
def _categorize_spec (spec_name : List Nat) : List Nat :=
  let spec_lower := pyLower spec_name
  match spec_categories.find? (fun cat =>
      cat.2.any fun kw => containsSub kw spec_lower) with
  | some cat => cat.1
  | none => strCodes "other"

/-- The ordered `unit_patterns` table of `_extract_unit`. -/
def unit_patterns : List (List Nat × List Nat) :=
  [(strCodes "hp", strCodes "horsepower"),
   (strCodes "lb-ft", strCodes "lb-ft"),
   (strCodes "mpg", strCodes "mpg"),
   (strCodes "lbs", strCodes "lbs"),
   (strCodes "in", strCodes "inches"),
   (strCodes "ft", strCodes "feet"),
   (strCodes "gal", strCodes "gallons"),
   (strCodes "L", strCodes "liters"),
   (strCodes "sec", strCodes "seconds"),
   (strCodes "mph", strCodes "mph")]

/-- The `KBBDataParser._extract_unit` (the `'L'` entry can never match the
lowercased name, exactly as in the source). -/
def _extract_unit (spec_name : List Nat) : List Nat :=
  match unit_patterns.find? (fun up =>
      containsSub up.1 (pyLower spec_name)) with
  | some up => up.2
  | none => []

/-- The `^\d+$`. -/
def isAllDigits (s : List Nat) : Bool := !s.isEmpty && s.all isDigitCode

/-- The `^\d+\.\d+$`. -/
def isDecimalForm (s : List Nat) : Bool :=
  let d1 := s.takeWhile isDigitCode
  match s.dropWhile isDigitCode with
  | 46 :: rest => !d1.isEmpty && isAllDigits rest
  | _ => false

/-- The `^\d+-\d+$`. -/
def isRangeForm (s : List Nat) : Bool :=
  let d1 := s.takeWhile isDigitCode
  match s.dropWhile isDigitCode with
  | 45 :: rest => !d1.isEmpty && isAllDigits rest
  | _ => false

/-- The `^\d+\s*(hp|mpg|lbs|in|ft|gal|L|sec|mph)` with `re.IGNORECASE`. -/
def isUnitForm (s : List Nat) : Bool :=
  let d1 := s.takeWhile isDigitCode
  if d1.isEmpty then false
  else
    let rest := (s.dropWhile isDigitCode).dropWhile pyIsSpace
    [strCodes "hp", strCodes "mpg", strCodes "lbs", strCodes "in",
     strCodes "ft", strCodes "gal", strCodes "l", strCodes "sec",
     strCodes "mph"].any fun u => (matchLit u rest).isSome

/-- The `KBBDataParser._is_numeric_value`. -/
def _is_numeric_value (value : List Nat) : Bool :=
  if value.isEmpty then false
  else isAllDigits value || isDecimalForm value || isRangeForm value ||
    isUnitForm value

/-- The `KBBDataParser._extract_trim_names_raw` over the `th` texts: skip the
first two columns, drop empty or all-whitespace cells, collapse
whitespace, and drop `See Pricing` / `See Cars` buttons. -/
def _extract_trim_names_raw (headers : List (List Nat)) : List (List Nat) :=
  (headers.drop 2).filterMap fun t =>
    if t.isEmpty || t.all pyIsSpace then none
    else
      let t' := normWs t
      if containsSub (strCodes "See Pricing") t' ||
          containsSub (strCodes "See Cars") t' then none
      else some t'

/-- One parsed specification entry of `parse_table_data`. -/
structure ParsedSpecEntry where
  spec_name : List Nat
  spec_category : List Nat
  values : List (List Nat)
  unit : List Nat
  is_numeric : Bool
deriving DecidableEq

/-- The `KBBDataParser.parse_table_data` over the header-cell texts and the
`td` texts per row: rows with fewer than 3 cells are skipped; cell 1 is
the spec name, cells 2.. are the values, truncated or padded (with the
empty string) to the trim count. -/
def parse_table_data (headers : List (List Nat))
    (rows : List (List (List Nat))) :
    List ParsedSpecEntry × List (List Nat) :=
  let trim_names := _extract_trim_names_raw headers
  let entries := rows.filterMap fun cells =>
    if cells.length < 3 then none
    else
      let spec_name := _clean_spec_name (cells.getD 1 [])
      let values0 := (cells.drop 2).map _clean_value
      let values :=
        if values0.length > trim_names.length then
          values0.take trim_names.length
        else if values0.length < trim_names.length then
          values0 ++ List.replicate (trim_names.length - values0.length) []
        else values0
      some { spec_name := spec_name,
             spec_category := _categorize_spec spec_name,
             values := values,
             unit := _extract_unit spec_name,
             is_numeric := _is_numeric_value (values.headD []) }
  (entries, trim_names)

/-! ## schema_transformer.SchemaTransformer._build_spec_lookup -/

/-- A raw specification dict as consumed by the schema transformer:
`label` / `spec_name` may each be absent, `values` defaults to `[]`. -/
structure SpecDict where
  label : Option (List Nat) := none
  spec_name : Option (List Nat) := none
  values : List (List Nat) := []
deriving DecidableEq

/-- The `spec.get('label', spec.get('spec_name', '')).strip().lower()`. -/
def specDictName (spec : SpecDict) : List Nat :=
  pyLower (pyStrip (spec.label.getD (spec.spec_name.getD [])))

/-- The pad-or-truncate normalisation of `_build_spec_lookup`
(source order: pad when short, truncate when long). -/
def padOrTruncate (num_trims : Nat) (values : List (List Nat)) :
    List (List Nat) :=
  if values.length < num_trims then
    values ++ List.replicate (num_trims - values.length) []
  else if values.length > num_trims then values.take num_trims
  else values

/-- The loop of `_build_spec_lookup` with its `seen_specs` set. -/
def buildSpecLookupGo (num_trims : Nat) (seen : List (List Nat)) :
    List SpecDict → List (List Nat × List (List Nat))
  | [] => []
  | spec :: rest =>
    let name := specDictName spec
    if name ∈ seen then buildSpecLookupGo num_trims seen rest
    else (name, padOrTruncate num_trims spec.values) ::
      buildSpecLookupGo num_trims (name :: seen) rest

/-- The `SchemaTransformer._build_spec_lookup`: insertion-ordered lookup from
normalised spec name to per-trim values, first occurrence wins. -/
def _build_spec_lookup (specifications : List SpecDict) (num_trims : Nat) :
    List (List Nat × List (List Nat)) :=
  buildSpecLookupGo num_trims [] specifications

/-! ## value_parser: the remaining field parsers

Floats parsed by Python (`float(...)`) are modelled as exact rationals;
`int(float)` truncation of non-negative values is `Nat` division. -/

/-- The `value_parser.parse_horsepower`: `re.match(r'(\d+)', value.strip())`. -/
def parse_horsepower (value : List Nat) : Option Nat :=
  if value.isEmpty then none
  else
    let ds := (pyStrip value).takeWhile isDigitCode
    if ds.isEmpty then none else some (digitsVal ds)

/-- The `value_parser.parse_torque`: same leading-integer match. -/
def parse_torque (value : List Nat) : Option Nat :=
  if value.isEmpty then none
  else
    let ds := (pyStrip value).takeWhile isDigitCode
    if ds.isEmpty then none else some (digitsVal ds)

/-- The `value_parser.parse_zero_to_sixty`: `([\d.]+)` then `float()` with a
caught `ValueError`. -/
def parse_zero_to_sixty (value : List Nat) : Option ℚ :=
  if value.isEmpty then none
  else
    let tok := (pyStrip value).takeWhile isDigitOrDot
    if tok.isEmpty then none
    else
      match pyFloatDec tok with
      | none => none
      | some (m, f) => some ((m : ℚ) / 10 ^ f)

/-- The `value_parser.parse_top_speed`: `(\d+)\s*(?:mph)?`. -/
def parse_top_speed (value : List Nat) : Option Nat :=
  if value.isEmpty then none
  else
    let ds := (pyStrip value).takeWhile isDigitCode
    if ds.isEmpty then none else some (digitsVal ds)

/-- The `value_parser.parse_weight`: `([\d,]+)` with commas stripped;
`int('')` raising `ValueError` (all-comma token) is caught to `none`. -/
def parse_weight (value : List Nat) : Option Nat :=
  if value.isEmpty then none
  else
    let tok := (pyStrip value).takeWhile fun c => isDigitCode c || decide (c = 44)
    if tok.isEmpty then none
    else
      let num := tok.filter fun c => decide (c ≠ 44)
      if num.isEmpty then none else some (digitsVal num)

/-- The `value_parser.parse_dimension`: `([\d.]+)` then `float()`, errors
caught. -/
def parse_dimension (value : List Nat) : Option ℚ :=
  if value.isEmpty then none
  else
    let tok := (pyStrip value).takeWhile isDigitOrDot
    if tok.isEmpty then none
    else
      match pyFloatDec tok with
      | none => none
      | some (m, f) => some ((m : ℚ) / 10 ^ f)

/-- The `value_parser.parse_volume`: same shape as `parse_dimension`. -/
def parse_volume (value : List Nat) : Option ℚ :=
  if value.isEmpty then none
  else
    let tok := (pyStrip value).takeWhile isDigitOrDot
    if tok.isEmpty then none
    else
      match pyFloatDec tok with
      | none => none
      | some (m, f) => some ((m : ℚ) / 10 ^ f)

/-- The `value_parser.parse_price`: strip `$` and `,`, take the leading
`([\d.]+)`, truncate `int(float(...))`; errors caught. -/
def parse_price (value : List Nat) : Option Nat :=
  if value.isEmpty then none
  else
    let cleaned := (pyStrip value).filter fun c => decide (c ≠ 36 ∧ c ≠ 44)
    let tok := cleaned.takeWhile isDigitOrDot
    if tok.isEmpty then none
    else
      match pyFloatDec tok with
      | none => none
      | some (m, f) => some (m / 10 ^ f)

/-- The `value_parser.feature_to_bool`: `Standard`/`Optional` (any case) mean
available; anything else is unknown. -/
def feature_to_bool (value : List Nat) : Option Bool :=
  if value.isEmpty then none
  else
    let v := pyLower (pyStrip value)
    if v = strCodes "standard" then some true
    else if v = strCodes "optional" then some true
    else none

/-- Case-sensitive literal match returning the remainder. -/
def matchExact : List Nat → List Nat → Option (List Nat)
  | [], s => some s
  | _ :: _, [] => none
  | p :: ps, c :: cs => if c = p then matchExact ps cs else none

/-- The `\s+`: at least one whitespace character, consumed greedily. -/
def ws1 (s : List Nat) : Option (List Nat) :=
  if (s.takeWhile pyIsSpace).isEmpty then none
  else some (s.dropWhile pyIsSpace)

/-- The `\d+`: at least one digit, consumed greedily. -/
def digits1 (s : List Nat) : Option (List Nat) :=
  if (s.takeWhile isDigitCode).isEmpty then none
  else some (s.dropWhile isDigitCode)

/-- The anchored prefix `^Save\s+\d+\s+of\s+\d+\s+` of `clean_trim_name`
(case-sensitive, as in the source pattern). -/
def cleanTrimMatch (s : List Nat) : Option (List Nat) :=
  (matchExact (strCodes "Save") s).bind fun r1 =>
    (ws1 r1).bind fun r2 =>
      (digits1 r2).bind fun r3 =>
        (ws1 r3).bind fun r4 =>
          (matchExact (strCodes "of") r4).bind fun r5 =>
            (ws1 r5).bind fun r6 =>
              (digits1 r6).bind fun r7 => ws1 r7

/-- The `value_parser.clean_trim_name`: strip, drop one `Save X of Y ` prefix
when present, strip again. -/
def clean_trim_name (trim_name : List Nat) : List Nat :=
  if trim_name.isEmpty then []
  else
    let s := pyStrip trim_name
    let cleaned :=
      match cleanTrimMatch s with
      | some rest => rest
      | none => s
    pyStrip cleaned

/-- Python `int(str)`: optional sign then digits (`none` = `ValueError`). -/
def pyInt (s : List Nat) : Option Int :=
  let t := pyStrip s
  match t with
  | 45 :: ds =>
    if !ds.isEmpty && ds.all isDigitCode then some (-(digitsVal ds : Int))
    else none
  | 43 :: ds =>
    if !ds.isEmpty && ds.all isDigitCode then some ((digitsVal ds : Int))
    else none
  | ds =>
    if !ds.isEmpty && ds.all isDigitCode then some ((digitsVal ds : Int))
    else none

/-! ## models.db_schema: the four-table data model -/

/-- The `db_schema.Vehicle`. -/
structure Vehicle where
  vehicle_id : Nat
  brand : List Nat
  model : List Nat
  year : Int
  trim : List Nat
  body_type : List Nat
  fuel_type : Option (List Nat) := none
  drivetrain : Option (List Nat) := none
  transmission : Option (List Nat) := none
  engine : Option (List Nat) := none
  msrp : Option Nat := none
deriving DecidableEq

/-- The `db_schema.VehicleSpecs`. -/
structure VehicleSpecs where
  vehicle_id : Nat
  horsepower : Option Nat := none
  torque : Option Nat := none
  zero_to_sixty : Option ℚ := none
  top_speed : Option Nat := none
  mpg_city : Option Nat := none
  mpg_highway : Option Nat := none
  mpg_combined : Option Nat := none
  curb_weight : Option Nat := none
  wheelbase : Option ℚ := none
  cargo_space : Option ℚ := none
  towing_capacity : Option Nat := none
deriving DecidableEq

/-- The `db_schema.VehicleFeatures`. -/
structure VehicleFeatures where
  vehicle_id : Nat
  leather_seats : Option Bool := none
  heated_seats : Option Bool := none
  heated_rear_seats : Option Bool := none
  ambient_lighting : Option Bool := none
  adaptive_headlights : Option Bool := none
  panorama_roof : Option Bool := none
  navigation : Option Bool := none
  parking_assist : Option Bool := none
  premium_audio : Option Bool := none
deriving DecidableEq

/-- The `db_schema.VehicleScores` (placeholder, never scraped). -/
structure VehicleScores where
  vehicle_id : Nat
  interior_quality : Option Nat := none
  sporty_design : Option Nat := none
  prestige : Option Nat := none
  performance : Option Nat := none
  market_value : Option Nat := none
deriving DecidableEq

/-- The `db_schema.FourTableDataset`. -/
structure FourTableDataset where
  vehicles : List Vehicle := []
  specs : List VehicleSpecs := []
  features : List VehicleFeatures := []
  scores : List VehicleScores := []
deriving DecidableEq

/-- The `FourTableDataset.add_vehicle`: append one record to each table. -/
def FourTableDataset.add_vehicle (d : FourTableDataset) (v : Vehicle)
    (s : VehicleSpecs) (fe : VehicleFeatures) (sc : VehicleScores) :
    FourTableDataset :=
  { vehicles := d.vehicles ++ [v], specs := d.specs ++ [s],
    features := d.features ++ [fe], scores := d.scores ++ [sc] }

/-- The four tables are in lockstep. -/
def eqLens (d : FourTableDataset) : Prop :=
  d.vehicles.length = d.specs.length ∧
  d.vehicles.length = d.features.length ∧
  d.vehicles.length = d.scores.length

/-- A `VehicleScores` record with every score field absent. -/
def scoresEmpty (sc : VehicleScores) : Prop :=
  sc.interior_quality = none ∧ sc.sporty_design = none ∧
  sc.prestige = none ∧ sc.performance = none ∧ sc.market_value = none

/-! ## schema_transformer.SchemaTransformer: record assembly -/

/-- The spec lookup built by `_build_spec_lookup`. -/
abbrev SpecLookup := List (List Nat × List (List Nat))

/-- The `SchemaTransformer._get_spec_value`: look the lowercased name up and
take the trim's entry, with empty values becoming `None`. -/
def _get_spec_value (lookup : SpecLookup) (spec_name : List Nat)
    (trim_idx : Nat) : Option (List Nat) :=
  match lookup.lookup (pyLower spec_name) with
  | none => none
  | some values =>
    if values.isEmpty then none
    else if trim_idx < values.length then
      let val := values.getD trim_idx []
      if val.isEmpty then none else some val
    else none

/-- The `SchemaTransformer._create_vehicle`. -/
def _create_vehicle (vehicle_id : Nat) (make model : List Nat) (year : Int)
    (trim body_type : List Nat) (lookup : SpecLookup) (trim_idx : Nat) :
    Vehicle :=
  let msrp_str := _get_spec_value lookup (strCodes "fair market price") trim_idx
  let fuel_type := _get_spec_value lookup (strCodes "fuel type") trim_idx
  let drivetrain := _get_spec_value lookup (strCodes "drivetrain") trim_idx
  let transmission :=
    _get_spec_value lookup (strCodes "transmission type") trim_idx
  let engine := _get_spec_value lookup (strCodes "engine") trim_idx
  let msrp :=
    match msrp_str with
    | some s => parse_price s
    | none => none
  { vehicle_id := vehicle_id, brand := make, model := model, year := year,
    trim := trim, body_type := body_type, fuel_type := fuel_type,
    drivetrain := drivetrain, transmission := transmission,
    engine := engine, msrp := msrp }

/-- The `SchemaTransformer._create_specs`.  `parse_fuel_economy` can raise a
`ValueError` (pattern 3 with a malformed float token), which propagates
out of the transformer: modelled as `none`. -/
def _create_specs (vehicle_id : Nat) (lookup : SpecLookup) (trim_idx : Nat) :
    Option VehicleSpecs :=
  let horsepower :=
    (_get_spec_value lookup (strCodes "horsepower") trim_idx).bind
      parse_horsepower
  let torque :=
    (_get_spec_value lookup (strCodes "torque") trim_idx).bind parse_torque
  let zero_to_sixty :=
    match _get_spec_value lookup (strCodes "0 - 60") trim_idx with
    | some s => parse_zero_to_sixty s
    | none =>
      match _get_spec_value lookup (strCodes "0 to 60") trim_idx with
      | some s => parse_zero_to_sixty s
      | none =>
        match _get_spec_value lookup (strCodes "0-60") trim_idx with
        | some s => parse_zero_to_sixty s
        | none => none
  let top_speed :=
    (_get_spec_value lookup (strCodes "top speed") trim_idx).bind
      parse_top_speed
  let fe :=
    match _get_spec_value lookup (strCodes "fuel economy") trim_idx with
    | none => some (none, none, none)
    | some s => (parse_fuel_economy s).toOption
  let curb_weight :=
    (_get_spec_value lookup (strCodes "curb weight") trim_idx).bind
      parse_weight
  let wheelbase :=
    match _get_spec_value lookup (strCodes "wheel base") trim_idx with
    | some s => parse_dimension s
    | none =>
      match _get_spec_value lookup (strCodes "wheelbase") trim_idx with
      | some s => parse_dimension s
      | none => none
  let cargo_space :=
    (_get_spec_value lookup (strCodes "cargo volume") trim_idx).bind
      parse_volume
  let towing_capacity :=
    (_get_spec_value lookup (strCodes "towing capacity") trim_idx).bind
      parse_weight
  match fe with
  | none => none
  | some (mpg_city, mpg_highway, mpg_combined) =>
    some { vehicle_id := vehicle_id, horsepower := horsepower,
           torque := torque, zero_to_sixty := zero_to_sixty,
           top_speed := top_speed, mpg_city := mpg_city,
           mpg_highway := mpg_highway, mpg_combined := mpg_combined,
           curb_weight := curb_weight, wheelbase := wheelbase,
           cargo_space := cargo_space, towing_capacity := towing_capacity }

/-- The `get_feature` helper of `_create_features`: the first name with a
truthy value decides (even when `feature_to_bool` then yields `None`). -/
def getFeature (lookup : SpecLookup) (trim_idx : Nat) :
    List (List Nat) → Option Bool
  | [] => none
  | n :: rest =>
    match _get_spec_value lookup n trim_idx with
    | some val => feature_to_bool val
    | none => getFeature lookup trim_idx rest

/-- The `SchemaTransformer._create_features`. -/
def _create_features (vehicle_id : Nat) (lookup : SpecLookup)
    (trim_idx : Nat) : VehicleFeatures :=
  { vehicle_id := vehicle_id,
    leather_seats := getFeature lookup trim_idx
      [strCodes "leather seats", strCodes "literseather seats"],
    heated_seats := getFeature lookup trim_idx
      [strCodes "heated seats", strCodes "heated front seats"],
    heated_rear_seats := getFeature lookup trim_idx
      [strCodes "heated rear seats"],
    ambient_lighting := getFeature lookup trim_idx
      [strCodes "ambient lighting", strCodes "interior ambient lighting"],
    adaptive_headlights := getFeature lookup trim_idx
      [strCodes "adaptive headlights", strCodes "adaptive front headlights"],
    panorama_roof := getFeature lookup trim_idx
      [strCodes "panorama moon roof", strCodes "panoramic moon roof",
       strCodes "panorama roof", strCodes "panoramic roof",
       strCodes "moonroof", strCodes "moon roof", strCodes "sunroof"],
    navigation := getFeature lookup trim_idx
      [strCodes "navigation system", strCodes "navigation",
       strCodes "gps navigation"],
    parking_assist := getFeature lookup trim_idx
      [strCodes "parking assist", strCodes "park assist",
       strCodes "parking sensors", strCodes "rear parking sensors"],
    premium_audio := getFeature lookup trim_idx
      [strCodes "premium radio", strCodes "premium audio",
       strCodes "premium sound", strCodes "premium sound system"] }

/-- The body of the per-trim loop of `_transform_bodytype`: clean the
trim name, derive the deterministic id, and build the four records
(`VehicleScores` holds only the id).  `none` when `_create_specs`
raised. -/
def transformTrim (lookup : SpecLookup) (make model : List Nat) (y : Int)
    (tab_name : List Nat) (trim_idx : Nat) (raw_trim : List Nat) :
    Option (Vehicle × VehicleSpecs × VehicleFeatures × VehicleScores) :=
  let trim := clean_trim_name raw_trim
  let vid := generate_vehicle_id make model y trim tab_name
  match _create_specs vid lookup trim_idx with
  | none => none
  | some specs =>
    some (_create_vehicle vid make model y trim tab_name lookup trim_idx,
          specs,
          _create_features vid lookup trim_idx,
          { vehicle_id := vid })

/-- The per-trim loop over `enumerate(trim_names)`; aborts (propagating
the exception) on the first failing trim. -/
def transformTrimsGo (lookup : SpecLookup) (make model : List Nat) (y : Int)
    (tab_name : List Nat) :
    Nat → List (List Nat) →
      Option (List (Vehicle × VehicleSpecs × VehicleFeatures × VehicleScores))
  | _, [] => some []
  | idx, raw :: rest =>
    match transformTrim lookup make model y tab_name idx raw with
    | none => none
    | some q =>
      match transformTrimsGo lookup make model y tab_name (idx + 1) rest with
      | none => none
      | some qs => some (q :: qs)

/-- The `SchemaTransformer._transform_bodytype`: skip (with a warning) when
specifications or trim names are missing, build the lookup, and add one
record quadruple per trim.  `none` models an uncaught exception
(`int(year)` or a fuel-economy `ValueError`). -/
def _transform_bodytype (d : FourTableDataset) (specifications : List SpecDict)
    (trim_names : List (List Nat)) (tab_name_field : Option (List Nat))
    (make model year : List Nat) (body_type : List Nat) :
    Option FourTableDataset :=
  let tab_name := tab_name_field.getD body_type
  if specifications.isEmpty || trim_names.isEmpty then some d
  else
    match pyInt year with
    | none => none
    | some y =>
      let lookup := _build_spec_lookup specifications trim_names.length
      match transformTrimsGo lookup make model y tab_name 0 trim_names with
      | none => none
      | some quads =>
        some (quads.foldl
          (fun ds q => ds.add_vehicle q.1 q.2.1 q.2.2.1 q.2.2.2) d)

/-! ## Theorems -/

/-- ASCII lowercasing is idempotent on code points. -/
theorem lowerCode_lowerCode (n : Nat) : lowerCode (lowerCode n) = lowerCode n := by
  unfold lowerCode
  split
  · rename_i h
    have hno : ¬ (65 ≤ n + 32 ∧ n + 32 ≤ 90) := by omega
    rw [if_neg hno]
  · rfl

/-- The `str.lower` is idempotent. -/
theorem pyLower_pyLower (s : List Nat) : pyLower (pyLower s) = pyLower s := by
  simp [pyLower, List.map_map, Function.comp_def, lowerCode_lowerCode]

set_option maxRecDepth 8000 in
/-- The MD5 embedding reproduces the RFC 1321 digest of the empty string. -/
theorem md5_nil_test_vector :
    md5 [] = [0xd4, 0x1d, 0x8c, 0xd9, 0x8f, 0x00, 0xb2, 0x04,
              0xe9, 0x80, 0x09, 0x98, 0xec, 0xf8, 0x42, 0x7e] := by
  decide

/-- C1: `generate_vehicle_id` is a pure deterministic function of
`(brand, model, year, trim, body_type)`: repeated calls on identical
arguments agree; lowercasing any of the string arguments does not change
the result; and the returned id is always strictly below `2^63` (the MD5
of the lowercased `brand|model|year|trim|bodytype` key masked to 63 bits). -/
theorem generate_vehicle_id_deterministic_ci_bounded :
    ∀ (brand model trim body_type : List Nat) (year : Int),
      generate_vehicle_id brand model year trim body_type =
        generate_vehicle_id brand model year trim body_type ∧
      generate_vehicle_id (pyLower brand) model year trim body_type =
        generate_vehicle_id brand model year trim body_type ∧
      generate_vehicle_id brand (pyLower model) year trim body_type =
        generate_vehicle_id brand model year trim body_type ∧
      generate_vehicle_id brand model year (pyLower trim) body_type =
        generate_vehicle_id brand model year trim body_type ∧
      generate_vehicle_id brand model year trim (pyLower body_type) =
        generate_vehicle_id brand model year trim body_type ∧
      generate_vehicle_id brand model year trim body_type <
        9223372036854775808 := by
  intro brand model trim body_type year
  refine ⟨rfl, ?_, ?_, ?_, ?_, ?_⟩
  · unfold generate_vehicle_id
    simp [pyLower, List.map_map, Function.comp_def, lowerCode_lowerCode]
  · unfold generate_vehicle_id
    simp [pyLower, List.map_map, Function.comp_def, lowerCode_lowerCode]
  · unfold generate_vehicle_id
    simp [pyLower, List.map_map, Function.comp_def, lowerCode_lowerCode]
  · unfold generate_vehicle_id
    simp [pyLower, List.map_map, Function.comp_def, lowerCode_lowerCode]
  · unfold generate_vehicle_id
    exact Nat.lt_of_le_of_lt Nat.and_le_right (by norm_num)
set_option maxRecDepth 4000 in
/-- C4: `parse_fuel_economy` returns exactly the literal results listed in
the specification.  The five patterns are tried in the order in which they
appear in the definition of `parse_fuel_economy` (labeled triple, MPGe,
kWh/100mi, plain MPG, bare in-range integer). -/
theorem parse_fuel_economy_literal_cases :
    parse_fuel_economy (strCodes "City 26/Hwy 35/Comb 29 MPG") =
      .ok (some 26, some 35, some 29) ∧
    parse_fuel_economy (strCodes "100 MPGe") = .ok (none, none, some 100) ∧
    parse_fuel_economy (strCodes "28 kWh/100 mi") = .ok (none, none, some 120) ∧
    parse_fuel_economy (strCodes "45") = .ok (none, none, some 45) ∧
    parse_fuel_economy (strCodes "999") = .ok (none, none, none) := by
  refine ⟨?_, ?_, ?_, ?_, ?_⟩ <;> decide

/-- Elements of a `[\d.]+` token are either the dot or a digit. -/
theorem isDigitOrDot_elim {c : Nat} (h : isDigitOrDot c = true) :
    c = 46 ∨ (48 ≤ c ∧ c ≤ 57) := by
  simp [isDigitOrDot, isDigitCode] at h
  omega

/-- Lowercasing does not move code points below 65. -/
theorem lowerCode_of_lt {c : Nat} (h : c < 65) : lowerCode c = c := by
  unfold lowerCode
  rw [if_neg]
  omega

/-- A keyword search skips a leading block of characters on which the
keyword's first letter can never match. -/
theorem searchNumAfter_append {k : Nat} {kw : List Nat} (tok rest : List Nat)
    (h : ∀ c ∈ tok, lowerCode c ≠ k) :
    searchNumAfter (k :: kw) (tok ++ rest) = searchNumAfter (k :: kw) rest := by
  induction tok with
  | nil => rfl
  | cons c t ih =>
    have hc := h c (List.mem_cons_self ..)
    have hnone : ∀ cs, numAt (k :: kw) (c :: cs) = none := fun cs => by
      simp [numAt, matchLit, hc]
    simp only [List.cons_append, searchNumAfter, hnone]
    exact ih fun c hc' => h c (List.mem_cons_of_mem _ hc')

/-- The `Comb` search likewise skips characters that cannot start it. -/
theorem searchComb_append (tok rest : List Nat)
    (h : ∀ c ∈ tok, lowerCode c ≠ 99) :
    searchComb (tok ++ rest) = searchComb rest := by
  induction tok with
  | nil => rfl
  | cons c t ih =>
    have hc := h c (List.mem_cons_self ..)
    have hnone : ∀ cs, combAt (c :: cs) = none := fun cs => by
      simp [combAt, matchLit, hc]
    simp only [List.cons_append, searchComb, hnone]
    exact ih fun c hc' => h c (List.mem_cons_of_mem _ hc')

/-- The `dropWhile` over an append whose left part is entirely dropped. -/
theorem dropWhile_append_all {α : Type} {p : α → Bool} {l₁ l₂ : List α}
    (h : ∀ a ∈ l₁, p a = true) :
    (l₁ ++ l₂).dropWhile p = l₂.dropWhile p := by
  induction l₁ with
  | nil => rfl
  | cons a t ih =>
    have ha := h a (List.mem_cons_self ..)
    simp only [List.cons_append, List.dropWhile_cons_of_pos ha]
    exact ih fun a h' => h a (List.mem_cons_of_mem _ h')

/-- The `dropWhile` over an append whose left part is not entirely dropped. -/
theorem dropWhile_append_ne {α : Type} {p : α → Bool} {l₁ l₂ r : List α}
    {c : α} (h : l₁.dropWhile p = c :: r) :
    (l₁ ++ l₂).dropWhile p = c :: (r ++ l₂) := by
  induction l₁ with
  | nil => simp at h
  | cons a t ih =>
    by_cases hp : p a
    · rw [List.dropWhile_cons_of_pos hp] at h
      simp only [List.cons_append, List.dropWhile_cons_of_pos hp]
      exact ih h
    · rw [List.dropWhile_cons_of_neg hp] at h
      cases h
      simp only [List.cons_append, List.dropWhile_cons_of_neg hp]

/-- The `takeWhile` over an append whose left part is entirely taken. -/
theorem takeWhile_append_all {α : Type} {p : α → Bool} {l₁ l₂ : List α}
    (h : ∀ a ∈ l₁, p a = true) :
    (l₁ ++ l₂).takeWhile p = l₁ ++ l₂.takeWhile p := by
  induction l₁ with
  | nil => rfl
  | cons a t ih =>
    have ha := h a (List.mem_cons_self ..)
    simp only [List.cons_append, List.takeWhile_cons_of_pos ha]
    rw [ih fun a h' => h a (List.mem_cons_of_mem _ h')]

/-- The head of a non-empty `dropWhile` result falsifies the predicate. -/
theorem dropWhile_head_false {α : Type} {p : α → Bool} {l r : List α} {c : α}
    (h : l.dropWhile p = c :: r) : p c = false := by
  induction l with
  | nil => simp at h
  | cons a t ih =>
    by_cases hp : p a
    · rw [List.dropWhile_cons_of_pos hp] at h
      exact ih h
    · rw [List.dropWhile_cons_of_neg hp] at h
      cases h
      simpa using hp

/-- Elements of `dropWhile` come from the original list. -/
theorem mem_of_mem_dropWhile {α : Type} {p : α → Bool} {l : List α} {a : α}
    (h : a ∈ l.dropWhile p) : a ∈ l :=
  (List.dropWhile_sublist p (l := l)).mem h

/-- The `str.strip()` is the identity when neither end is whitespace. -/
theorem pyStrip_eq_self {s : List Nat}
    (h1 : s.dropWhile pyIsSpace = s)
    (h2 : s.reverse.dropWhile pyIsSpace = s.reverse) : pyStrip s = s := by
  unfold pyStrip
  rw [h1, h2, List.reverse_reverse]

/-- Characters of a `[\d.]+` token are harmless for all of the leading
searches: they lowercase to themselves, are below 65000, are not
whitespace. -/
theorem tok_char_facts {c : Nat} (h : isDigitOrDot c = true) :
    lowerCode c = c ∧ c < 65 ∧ pyIsSpace c = false := by
  rcases isDigitOrDot_elim h with h' | h'
  · subst h'
    refine ⟨rfl, by omega, rfl⟩
  · refine ⟨lowerCode_of_lt (by omega), by omega, ?_⟩
    simp [pyIsSpace]
    omega


/-- The `natLog2Go` computes `⌊log2⌋` whenever the fuel covers the input. -/
theorem natLog2Go_spec (fuel : Nat) : ∀ n : Nat, 1 ≤ n → n ≤ fuel →
    2 ^ natLog2Go fuel n ≤ n ∧ n < 2 ^ (natLog2Go fuel n + 1) := by
  induction fuel with
  | zero => intro n h1 h2; omega
  | succ fuel ih =>
    intro n h1 h2
    by_cases hn : n ≤ 1
    · simp only [natLog2Go, if_pos hn]
      constructor
      · simpa using h1
      · simpa using by omega
    · have h1' : 1 ≤ n / 2 := by omega
      have h2' : n / 2 ≤ fuel := by omega
      obtain ⟨ha, hb⟩ := ih (n / 2) h1' h2'
      simp only [natLog2Go, if_neg hn]
      rw [pow_succ] at hb
      rw [pow_succ, pow_succ, pow_succ]
      omega

/-- The `natLog2` is `⌊log2⌋` on positive inputs. -/
theorem natLog2_spec (n : Nat) (h : 1 ≤ n) :
    2 ^ natLog2 n ≤ n ∧ n < 2 ^ (natLog2 n + 1) :=
  natLog2Go_spec n n h le_rfl

/-- The `rneFrac` with denominator `1` is the identity. -/
theorem rneFrac_one (a : Nat) : rneFrac a 1 = a := by
  simp only [rneFrac, Nat.mod_one, Nat.div_one]
  norm_num

/-- The `rneFrac` is at least the floor of the fraction. -/
theorem rneFrac_ge_div (a b : Nat) : a / b ≤ rneFrac a b := by
  simp only [rneFrac]
  split_ifs <;> omega

/-- The `rneFrac` exceeds the fraction by at most one half. -/
theorem rneFrac_le_cast (a b : Nat) (hb : 0 < b) :
    (rneFrac a b : ℚ) ≤ (a : ℚ) / b + 1 / 2 := by
  have hqr : b * (a / b) + a % b = a := Nat.div_add_mod a b
  have hrb : a % b < b := Nat.mod_lt a hb
  have hbq : (0 : ℚ) < (b : ℚ) := by exact_mod_cast hb
  have ha : (a : ℚ) = (b : ℚ) * ((a / b : ℕ) : ℚ) + ((a % b : ℕ) : ℚ) := by
    exact_mod_cast hqr.symm
  have hrq : (0 : ℚ) ≤ ((a % b : ℕ) : ℚ) := by positivity
  simp only [rneFrac]
  split_ifs with h1 h2 h3
  · rw [ha, add_div, mul_div_cancel_left₀ _ (ne_of_gt hbq)]
    have : (0 : ℚ) ≤ ((a % b : ℕ) : ℚ) / b := by positivity
    linarith
  · push_cast
    rw [ha, add_div, mul_div_cancel_left₀ _ (ne_of_gt hbq)]
    have h2q : (b : ℚ) < 2 * ((a % b : ℕ) : ℚ) := by exact_mod_cast h2
    have : (1 : ℚ) / 2 ≤ ((a % b : ℕ) : ℚ) / b := by
      rw [div_le_div_iff (by norm_num) hbq]
      linarith
    linarith
  · rw [ha, add_div, mul_div_cancel_left₀ _ (ne_of_gt hbq)]
    have : (0 : ℚ) ≤ ((a % b : ℕ) : ℚ) / b := by positivity
    linarith
  · push_cast
    rw [ha, add_div, mul_div_cancel_left₀ _ (ne_of_gt hbq)]
    have h2q : (b : ℚ) ≤ 2 * ((a % b : ℕ) : ℚ) := by
      exact_mod_cast (by omega : b ≤ 2 * (a % b))
    have : (1 : ℚ) / 2 ≤ ((a % b : ℕ) : ℚ) / b := by
      rw [div_le_div_iff (by norm_num) hbq]
      linarith
    linarith

/-- Cast bridge between integer powers of two over `ℚ` and `ℕ`. -/
theorem zpow_natCast_q (k : Nat) : (2 : ℚ) ^ (k : ℤ) = ((2 ^ k : ℕ) : ℚ) := by
  rw [zpow_natCast]
  push_cast
  ring

/-- The `pow2le` decides `2 ^ e ≤ a / b`. -/
theorem pow2le_iff (e : Int) (a b : Nat) (hb : 0 < b) :
    pow2le e a b = true ↔ (2 : ℚ) ^ e ≤ (a : ℚ) / b := by
  have hbq : (0 : ℚ) < (b : ℚ) := by exact_mod_cast hb
  rw [le_div_iff₀ hbq]
  simp only [pow2le]
  split_ifs with h
  · rw [decide_eq_true_eq]
    have he : (2 : ℚ) ^ e = ((2 ^ e.toNat : ℕ) : ℚ) := by
      rw [← zpow_natCast_q]
      congr 1
      omega
    rw [he,
      show ((2 ^ e.toNat : ℕ) : ℚ) * (b : ℚ) = ((2 ^ e.toNat * b : ℕ) : ℚ) by push_cast; ring,
      Nat.cast_le, Nat.mul_comm]
  · rw [decide_eq_true_eq]
    have hee : (2 : ℚ) ^ e * (2 : ℚ) ^ ((-e).toNat : ℕ) = 1 := by
      rw [← zpow_natCast (2 : ℚ) (-e).toNat, ← zpow_add₀ (by norm_num : (2:ℚ) ≠ 0),
        show e + ((-e).toNat : ℤ) = 0 by omega, zpow_zero]
    have h2e : (0 : ℚ) < (2 : ℚ) ^ e := by positivity
    have h2K : (0 : ℚ) < (2 : ℚ) ^ ((-e).toNat : ℕ) := by positivity
    constructor
    · intro hle
      have hq : (b : ℚ) ≤ (a : ℚ) * (2 : ℚ) ^ ((-e).toNat : ℕ) := by
        calc (b : ℚ) ≤ ((a * 2 ^ (-e).toNat : ℕ) : ℚ) := by exact_mod_cast hle
          _ = (a : ℚ) * (2 : ℚ) ^ ((-e).toNat : ℕ) := by push_cast; ring
      calc (2 : ℚ) ^ e * b
          ≤ (2 : ℚ) ^ e * ((a : ℚ) * (2 : ℚ) ^ ((-e).toNat : ℕ)) :=
            mul_le_mul_of_nonneg_left hq (le_of_lt h2e)
        _ = (a : ℚ) * ((2 : ℚ) ^ e * (2 : ℚ) ^ ((-e).toNat : ℕ)) := by ring
        _ = a := by rw [hee]; ring
    · intro hle
      have hq : (b : ℚ) ≤ (a : ℚ) * (2 : ℚ) ^ ((-e).toNat : ℕ) := by
        calc (b : ℚ) = ((2 : ℚ) ^ e * b) * (2 : ℚ) ^ ((-e).toNat : ℕ) := by
              rw [mul_comm ((2 : ℚ) ^ e) (b : ℚ), mul_assoc, hee, mul_one]
          _ ≤ (a : ℚ) * (2 : ℚ) ^ ((-e).toNat : ℕ) :=
              mul_le_mul_of_nonneg_right hle (le_of_lt h2K)
      have : ((b : ℕ) : ℚ) ≤ ((a * 2 ^ (-e).toNat : ℕ) : ℚ) := by
        push_cast
        push_cast at hq
        linarith
      exact_mod_cast this

/-- The `fracExp` is the binade exponent of `a / b`. -/
theorem fracExp_spec (a b : Nat) (ha : 1 ≤ a) (hb : 1 ≤ b) :
    (2 : ℚ) ^ fracExp a b ≤ (a : ℚ) / b ∧
      (a : ℚ) / b < (2 : ℚ) ^ (fracExp a b + 1) := by
  obtain ⟨ha1, ha2⟩ := natLog2_spec a ha
  obtain ⟨hb1, hb2⟩ := natLog2_spec b hb
  have hbq : (0 : ℚ) < (b : ℚ) := by exact_mod_cast hb
  have hlow : (2 : ℚ) ^ ((natLog2 a : ℤ) - (natLog2 b : ℤ) - 1) < (a : ℚ) / b := by
    rw [lt_div_iff hbq]
    have hkey : (2 : ℚ) ^ ((natLog2 a : ℤ) - (natLog2 b : ℤ) - 1) *
        (2 : ℚ) ^ ((natLog2 b : ℤ) + 1) = (2 : ℚ) ^ (natLog2 a : ℤ) := by
      rw [← zpow_add₀ (by norm_num : (2:ℚ) ≠ 0)]
      congr 1
      ring
    have hb2q : (b : ℚ) < (2 : ℚ) ^ ((natLog2 b : ℤ) + 1) := by
      have : ((natLog2 b : ℤ) + 1) = ((natLog2 b + 1 : ℕ) : ℤ) := by push_cast; ring
      rw [this, zpow_natCast_q]
      exact_mod_cast hb2
    have ha1q : (2 : ℚ) ^ (natLog2 a : ℤ) ≤ (a : ℚ) := by
      rw [zpow_natCast_q]
      exact_mod_cast ha1
    calc (2 : ℚ) ^ ((natLog2 a : ℤ) - (natLog2 b : ℤ) - 1) * b
        < (2 : ℚ) ^ ((natLog2 a : ℤ) - (natLog2 b : ℤ) - 1) *
            (2 : ℚ) ^ ((natLog2 b : ℤ) + 1) := by
          exact mul_lt_mul_of_pos_left hb2q (by positivity)
      _ = (2 : ℚ) ^ (natLog2 a : ℤ) := hkey
      _ ≤ a := ha1q
  have hup : (a : ℚ) / b < (2 : ℚ) ^ ((natLog2 a : ℤ) - (natLog2 b : ℤ) + 1) := by
    rw [div_lt_iff hbq]
    have ha2q : (a : ℚ) < (2 : ℚ) ^ ((natLog2 a : ℤ) + 1) := by
      have : ((natLog2 a : ℤ) + 1) = ((natLog2 a + 1 : ℕ) : ℤ) := by push_cast; ring
      rw [this, zpow_natCast_q]
      exact_mod_cast ha2
    have hb1q : (2 : ℚ) ^ (natLog2 b : ℤ) ≤ (b : ℚ) := by
      rw [zpow_natCast_q]
      exact_mod_cast hb1
    calc (a : ℚ) < (2 : ℚ) ^ ((natLog2 a : ℤ) + 1) := ha2q
      _ = (2 : ℚ) ^ ((natLog2 a : ℤ) - (natLog2 b : ℤ) + 1) *
            (2 : ℚ) ^ (natLog2 b : ℤ) := by
          rw [← zpow_add₀ (by norm_num : (2:ℚ) ≠ 0)]
          congr 1
          ring
      _ ≤ (2 : ℚ) ^ ((natLog2 a : ℤ) - (natLog2 b : ℤ) + 1) * b := by
          exact mul_le_mul_of_nonneg_left hb1q (by positivity)
  simp only [fracExp]
  split_ifs with h
  · refine ⟨(pow2le_iff _ a b hb).mp h, ?_⟩
    have : (natLog2 a : ℤ) - (natLog2 b : ℤ) - 1 + 1 + 1 =
        (natLog2 a : ℤ) - (natLog2 b : ℤ) + 1 := by ring
    rw [this]
    exact hup
  · refine ⟨le_of_lt hlow, ?_⟩
    have h' : ¬ ((2 : ℚ) ^ ((natLog2 a : ℤ) - (natLog2 b : ℤ) - 1 + 1) ≤ (a : ℚ) / b) := by
      intro hc
      exact h ((pow2le_iff _ a b hb).mpr hc)
    linarith [lt_of_not_le h']
/-- Evaluation of `roundFrac` in the normal low-exponent regime. -/
theorem roundFrac_eval_low (a b : Nat) (ha : a ≠ 0)
    (h1 : ¬ fracExp a b < -1022) (h2 : fracExp a b ≤ 52) :
    roundFrac a b = some (rneFrac (a * 2 ^ (52 - fracExp a b).toNat) b,
      fracExp a b - 52) := by
  simp only [roundFrac]
  rw [if_neg ha, if_neg h1, if_pos h2, if_neg ?_]
  rintro (h | ⟨h, -⟩) <;> omega

/-- Evaluation of `roundFrac` in the subnormal regime. -/
theorem roundFrac_eval_sub (a b : Nat) (ha : a ≠ 0)
    (h1 : fracExp a b < -1022) :
    roundFrac a b = some (rneFrac (a * 2 ^ 1074) b, -1074) := by
  simp only [roundFrac]
  rw [if_neg ha, if_pos h1]

/-- If a fraction is below one half, its rounding scaled by `2 ^ k`
stays below `2 ^ k`. -/
theorem rneFrac_small_lt_pow (a b k : Nat) (hb : 1 ≤ b) (hk : 1 ≤ k)
    (hq2 : (a : ℚ) / b < 1 / 2) :
    rneFrac (a * 2 ^ k) b < 2 ^ k := by
  have h1 := rneFrac_le_cast (a * 2 ^ k) b (by omega)
  have hcast : ((a * 2 ^ k : ℕ) : ℚ) / b = ((a : ℚ) / b) * (2 : ℚ) ^ k := by
    push_cast
    ring
  rw [hcast] at h1
  have hbig : (0 : ℚ) < (2 : ℚ) ^ k := by positivity
  have hhalfpow : ((a : ℚ) / b) * (2 : ℚ) ^ k < (1 / 2) * 2 ^ k :=
    mul_lt_mul_of_pos_right hq2 hbig
  have hP1 : (2 : ℚ) ≤ (2 : ℚ) ^ k := by
    calc (2 : ℚ) = 2 ^ 1 := (pow_one 2).symm
      _ ≤ 2 ^ k := pow_le_pow_right (by norm_num) hk
  have h2 : ((rneFrac (a * 2 ^ k) b : ℕ) : ℚ) < ((2 ^ k : ℕ) : ℚ) := by
    push_cast
    linarith
  exact_mod_cast h2

/-- The quotient `3370 / m` (for `1 ≤ m ≤ 2 ^ 53`) rounds to a finite
double whose Python `int()` is exactly the natural floor `3370 / m`:
the significand stays on the correct side of both integer boundaries
because the gap `1 / m` always exceeds half an ulp. -/
theorem roundFrac_floor_3370 (a b m : Nat) (hb : 1 ≤ b) (hm1 : 1 ≤ m)
    (hm2 : m ≤ 2 ^ 53) (hq : a * m = 3370 * b) :
    ∃ s2 e2, roundFrac a b = some (s2, e2) ∧ dfloor s2 e2 = 3370 / m := by
  have ha : 1 ≤ a := by
    rcases Nat.eq_zero_or_pos a with h | h
    · subst h
      simp at hq
      omega
    · exact h
  have hbq : (0 : ℚ) < (b : ℚ) := by exact_mod_cast hb
  have hmq : (0 : ℚ) < (m : ℚ) := by exact_mod_cast hm1
  have hqq : (a : ℚ) / b = 3370 / m := by
    rw [div_eq_div_iff (ne_of_gt hbq) (ne_of_gt hmq)]
    exact_mod_cast hq
  set n := 3370 / m with hn
  have hm0 : 0 < m := hm1
  have hn2 : 3370 < (n + 1) * m := (Nat.div_lt_iff_lt_mul hm0).mp (Nat.lt_succ_self n)
  have hn1 : n * m ≤ 3370 := Nat.div_mul_le_self 3370 m
  have hql : (n : ℚ) * b ≤ (a : ℚ) := by
    have h0 : (n : ℚ) ≤ (a : ℚ) / b := by
      rw [hqq, le_div_iff₀ hmq]
      exact_mod_cast hn1
    rw [le_div_iff₀ hbq] at h0
    exact h0
  obtain ⟨hfl, hfu⟩ := fracExp_spec a b ha hb
  have hub : (a : ℚ) / b ≤ 3370 := by
    rw [hqq, div_le_iff₀ hmq]
    have h1m : (1 : ℚ) ≤ (m : ℚ) := by exact_mod_cast hm1
    nlinarith
  have h4096 : (2 : ℚ) ^ (12 : ℤ) = 4096 := by
    rw [show (12 : ℤ) = ((12 : ℕ) : ℤ) from rfl, zpow_natCast]
    norm_num
  have hE11 : fracExp a b ≤ 11 := by
    by_contra hc
    push_neg at hc
    have h1 : (2 : ℚ) ^ (12 : ℤ) ≤ (2 : ℚ) ^ fracExp a b :=
      zpow_le_zpow_right₀ (by norm_num) (by omega)
    rw [h4096] at h1
    linarith
  have h2048 : (2 : ℚ) ^ (11 : ℤ) = 2048 := by
    rw [show (11 : ℤ) = ((11 : ℕ) : ℤ) from rfl, zpow_natCast]
    norm_num
  have hlb : (2 : ℚ) ^ (-(42 : ℤ)) < (a : ℚ) / b := by
    rw [hqq, lt_div_iff₀ hmq]
    have hm2q : (m : ℚ) ≤ ((2 ^ 53 : ℕ) : ℚ) := by exact_mod_cast hm2
    have hcol : (2 : ℚ) ^ (-(42 : ℤ)) * ((2 ^ 53 : ℕ) : ℚ) = (2 : ℚ) ^ (11 : ℤ) := by
      rw [← zpow_natCast_q, ← zpow_add₀ (by norm_num : (2 : ℚ) ≠ 0)]
      norm_num
    calc (2 : ℚ) ^ (-(42 : ℤ)) * (m : ℚ)
        ≤ (2 : ℚ) ^ (-(42 : ℤ)) * ((2 ^ 53 : ℕ) : ℚ) :=
          mul_le_mul_of_nonneg_left hm2q (by positivity)
      _ = (2 : ℚ) ^ (11 : ℤ) := hcol
      _ < 3370 := by rw [h2048]; norm_num
  have hEl : -42 ≤ fracExp a b := by
    by_contra hc
    push_neg at hc
    have h1 : (2 : ℚ) ^ (fracExp a b + 1) ≤ (2 : ℚ) ^ (-(42 : ℤ)) :=
      zpow_le_zpow_right₀ (by norm_num) (by omega)
    exact lt_irrefl _ ((hfu.trans_le h1).trans hlb)
  have hane : a ≠ 0 := by omega
  have hres := roundFrac_eval_low a b hane (by omega) (by omega)
  refine ⟨_, _, hres, ?_⟩
  set E := fracExp a b with hE
  have htE : ((52 - E).toNat : ℤ) = 52 - E := by omega
  set t := (52 - E).toNat with htdef
  have ht41 : 41 ≤ t := by omega
  simp only [dfloor]
  rw [if_neg (by omega : ¬ (0 : ℤ) ≤ E - 52), show (-(E - 52)).toNat = t by omega]
  have h2t : 0 < 2 ^ t := by positivity
  have hlow : n * 2 ^ t ≤ rneFrac (a * 2 ^ t) b := by
    refine le_trans ?_ (rneFrac_ge_div _ _)
    rw [Nat.le_div_iff_mul_le (by omega : 0 < b)]
    have hnb : n * b ≤ a := by exact_mod_cast hql
    calc n * 2 ^ t * b = n * b * 2 ^ t := by ring
      _ ≤ a * 2 ^ t := Nat.mul_le_mul_right _ hnb
  have hupq : ((rneFrac (a * 2 ^ t) b : ℕ) : ℚ) < (((n + 1) * 2 ^ t : ℕ) : ℚ) := by
    have h1 := rneFrac_le_cast (a * 2 ^ t) b (by omega)
    have hcast : ((a * 2 ^ t : ℕ) : ℚ) / b = ((a : ℚ) / b) * (2 : ℚ) ^ t := by
      push_cast
      ring
    rw [hcast] at h1
    have hEm : (m : ℚ) * (2 : ℚ) ^ E ≤ 3370 := by
      have h0 := hfl
      rw [hqq, le_div_iff₀ hmq] at h0
      nlinarith
    have hdelta : 1 / (m : ℚ) ≤ ((n : ℚ) + 1) - (a : ℚ) / b := by
      rw [hqq, le_sub_iff_add_le, div_add_div_same, div_le_iff₀ hmq]
      have h3371 : (3371 : ℚ) ≤ ((n : ℚ) + 1) * m := by
        exact_mod_cast (by omega : 3371 ≤ (n + 1) * m)
      linarith
    have hminv : (2 : ℚ) ^ E / 3370 ≤ 1 / (m : ℚ) := by
      rw [div_le_div_iff (by norm_num) hmq]
      nlinarith
    have hEt : (2 : ℚ) ^ E * (2 : ℚ) ^ t = (2 : ℚ) ^ (52 : ℤ) := by
      rw [← zpow_natCast (2 : ℚ) t, ← zpow_add₀ (by norm_num : (2 : ℚ) ≠ 0)]
      congr 1
      omega
    have h52 : (2 : ℚ) ^ (52 : ℤ) = ((2 ^ 52 : ℕ) : ℚ) := by
      rw [show (52 : ℤ) = ((52 : ℕ) : ℤ) from rfl, zpow_natCast_q]
    have hmargin : (1 : ℚ) / 2 < (((n : ℚ) + 1) - (a : ℚ) / b) * (2 : ℚ) ^ t := by
      calc (1 : ℚ) / 2 < (2 : ℚ) ^ (52 : ℤ) / 3370 := by
            rw [h52, div_lt_div_iff (by norm_num) (by norm_num)]
            norm_num
        _ = ((2 : ℚ) ^ E * (2 : ℚ) ^ t) / 3370 := by rw [hEt]
        _ = ((2 : ℚ) ^ E / 3370) * (2 : ℚ) ^ t := by ring
        _ ≤ (1 / (m : ℚ)) * (2 : ℚ) ^ t :=
            mul_le_mul_of_nonneg_right hminv (by positivity)
        _ ≤ (((n : ℚ) + 1) - (a : ℚ) / b) * (2 : ℚ) ^ t :=
            mul_le_mul_of_nonneg_right hdelta (by positivity)
    push_cast
    calc ((rneFrac (a * 2 ^ t) b : ℕ) : ℚ) ≤ (a : ℚ) / b * 2 ^ t + 1 / 2 := h1
      _ < (a : ℚ) / b * 2 ^ t + (((n : ℚ) + 1) - (a : ℚ) / b) * 2 ^ t := by linarith
      _ = ((n : ℚ) + 1) * 2 ^ t := by ring
  have hup : rneFrac (a * 2 ^ t) b < (n + 1) * 2 ^ t := by exact_mod_cast hupq
  have hdiv1 : n ≤ rneFrac (a * 2 ^ t) b / 2 ^ t := by
    rw [Nat.le_div_iff_mul_le h2t]
    exact hlow
  have hdiv2 : rneFrac (a * 2 ^ t) b / 2 ^ t < n + 1 := by
    rw [Nat.div_lt_iff_lt_mul h2t]
    exact hup
  omega

/-- A positive fraction below one half rounds to a double whose Python
`int()` is `0` (covers both the normal and the subnormal regime). -/
theorem roundFrac_small_zero (a b : Nat) (ha : 1 ≤ a) (hb : 1 ≤ b)
    (hab : 2 * a < b) :
    ∃ s2 e2, roundFrac a b = some (s2, e2) ∧ dfloor s2 e2 = 0 := by
  have hbq : (0 : ℚ) < (b : ℚ) := by exact_mod_cast hb
  have hq2 : (a : ℚ) / b < 1 / 2 := by
    rw [div_lt_div_iff hbq (by norm_num)]
    exact_mod_cast (by omega : a * 2 < 1 * b)
  obtain ⟨hfl, hfu⟩ := fracExp_spec a b ha hb
  have hhalf : (2 : ℚ) ^ (-(1 : ℤ)) = 1 / 2 := by
    rw [zpow_neg, zpow_one]
    norm_num
  have hE2 : fracExp a b ≤ -2 := by
    by_contra hc
    push_neg at hc
    have h1 : (2 : ℚ) ^ (-(1 : ℤ)) ≤ (2 : ℚ) ^ fracExp a b :=
      zpow_le_zpow_right₀ (by norm_num) (by omega)
    rw [hhalf] at h1
    linarith
  have hane : a ≠ 0 := by omega
  by_cases hsub : fracExp a b < -1022
  · have hres := roundFrac_eval_sub a b hane hsub
    refine ⟨_, _, hres, ?_⟩
    simp only [dfloor]
    rw [if_neg (by norm_num : ¬ (0 : ℤ) ≤ -1074),
      show (-(-1074 : ℤ)).toNat = 1074 by rfl]
    exact Nat.div_eq_of_lt (rneFrac_small_lt_pow a b 1074 hb (by norm_num) hq2)
  · have hres := roundFrac_eval_low a b hane hsub (by omega)
    refine ⟨_, _, hres, ?_⟩
    set E := fracExp a b with hEdef
    have htE : ((52 - E).toNat : ℤ) = 52 - E := by omega
    set t := (52 - E).toNat with htdef
    have ht54 : 54 ≤ t := by omega
    simp only [dfloor]
    rw [if_neg (by omega : ¬ (0 : ℤ) ≤ E - 52), show (-(E - 52)).toNat = t by omega]
    exact Nat.div_eq_of_lt (rneFrac_small_lt_pow a b t hb (by omega) hq2)
/-- For an integer `1 ≤ m ≤ 2 ^ 53` the conversion `float(m)` is exact,
and the subsequent double division `3370 / float(m)` truncates to the
natural floor `3370 / m`. -/
theorem div3370_roundFrac_one (m sg : Nat) (e : Int) (hm1 : 1 ≤ m)
    (hm2 : m ≤ 2 ^ 53) (hr : roundFrac m 1 = some (sg, e)) :
    ∃ s2 e2, div3370 sg e = some (s2, e2) ∧ dfloor s2 e2 = 3370 / m := by
  obtain ⟨hfl, hfu⟩ := fracExp_spec m 1 hm1 le_rfl
  rw [Nat.cast_one, div_one] at hfl hfu
  have hE0 : 0 ≤ fracExp m 1 := by
    by_contra hc
    push_neg at hc
    have h1 : (2 : ℚ) ^ (fracExp m 1 + 1) ≤ (2 : ℚ) ^ (0 : ℤ) :=
      zpow_le_zpow_right₀ (by norm_num) (by omega)
    rw [zpow_zero] at h1
    have hm1q : (1 : ℚ) ≤ (m : ℚ) := by exact_mod_cast hm1
    linarith [hfu.trans_le h1]
  have hE53 : fracExp m 1 ≤ 53 := by
    by_contra hc
    push_neg at hc
    have h1 : (2 : ℚ) ^ (54 : ℤ) ≤ (2 : ℚ) ^ fracExp m 1 :=
      zpow_le_zpow_right₀ (by norm_num) (by omega)
    have h54 : (2 : ℚ) ^ (54 : ℤ) = ((2 ^ 54 : ℕ) : ℚ) := by
      rw [show (54 : ℤ) = ((54 : ℕ) : ℤ) from rfl, zpow_natCast_q]
    have hm2q : (m : ℚ) ≤ ((2 ^ 53 : ℕ) : ℚ) := by exact_mod_cast hm2
    rw [h54] at h1
    have hcon : ((2 ^ 54 : ℕ) : ℚ) ≤ ((2 ^ 53 : ℕ) : ℚ) :=
      le_trans h1 (le_trans hfl hm2q)
    have hcon2 : (2 ^ 54 : ℕ) ≤ 2 ^ 53 := by exact_mod_cast hcon
    norm_num at hcon2
  have hane : m ≠ 0 := by omega
  by_cases hE52 : fracExp m 1 ≤ 52
  · have hres := roundFrac_eval_low m 1 hane (by omega) hE52
    rw [rneFrac_one] at hres
    rw [hres] at hr
    have hpair := Option.some.inj hr
    have hsg : m * 2 ^ (52 - fracExp m 1).toNat = sg := congrArg Prod.fst hpair
    have he : fracExp m 1 - 52 = e := congrArg Prod.snd hpair
    subst hsg
    subst he
    by_cases he0 : (0 : ℤ) ≤ fracExp m 1 - 52
    · simp only [div3370, if_pos he0]
      have harg : m * 2 ^ (52 - fracExp m 1).toNat *
          2 ^ (fracExp m 1 - 52).toNat = m := by
        rw [show (52 - fracExp m 1).toNat = 0 by omega,
          show (fracExp m 1 - 52).toNat = 0 by omega]
        simp
      rw [harg]
      exact roundFrac_floor_3370 3370 m m hm1 hm1 hm2 (by ring)
    · simp only [div3370, if_neg he0]
      rw [show (-(fracExp m 1 - 52)).toNat = (52 - fracExp m 1).toNat by omega]
      refine roundFrac_floor_3370 (3370 * 2 ^ (52 - fracExp m 1).toNat)
        (m * 2 ^ (52 - fracExp m 1).toNat) m ?_ hm1 hm2 (by ring)
      have hp : 0 < m * 2 ^ (52 - fracExp m 1).toNat := by positivity
      omega
  · have hE : fracExp m 1 = 53 := by omega
    have hmeq : m = 2 ^ 53 := by
      have h53 : (2 : ℚ) ^ (53 : ℤ) = ((2 ^ 53 : ℕ) : ℚ) := by
        rw [show (53 : ℤ) = ((53 : ℕ) : ℤ) from rfl, zpow_natCast_q]
      rw [hE, h53] at hfl
      have hge : (2 ^ 53 : ℕ) ≤ m := by exact_mod_cast hfl
      omega
    subst hmeq
    have hconc : roundFrac (2 ^ 53) 1 = some (2 ^ 52, 1) := by decide
    rw [hconc] at hr
    have hpair := Option.some.inj hr
    have hsg : (2 : ℕ) ^ 52 = sg := congrArg Prod.fst hpair
    have he : (1 : ℤ) = e := congrArg Prod.snd hpair
    subst hsg
    subst he
    simp only [div3370, if_pos (by norm_num : (0 : ℤ) ≤ 1)]
    have harg : 2 ^ 52 * 2 ^ (1 : ℤ).toNat = 2 ^ 53 := by norm_num
    rw [harg]
    exact roundFrac_floor_3370 3370 (2 ^ 53) (2 ^ 53) (by norm_num)
      (by norm_num) le_rfl (by ring)

/-- For an integer `m > 2 ^ 53` the double `float(m)` is at least
`2 ^ 53`, so the double quotient `3370 / float(m)` truncates to `0`. -/
theorem div3370_roundFrac_one_big (m sg : Nat) (e : Int) (hm : 2 ^ 53 < m)
    (hr : roundFrac m 1 = some (sg, e)) :
    ∃ s2 e2, div3370 sg e = some (s2, e2) ∧ dfloor s2 e2 = 0 := by
  have hm1 : 1 ≤ m := le_trans (by norm_num) (le_of_lt hm)
  obtain ⟨hfl, hfu⟩ := fracExp_spec m 1 hm1 le_rfl
  rw [Nat.cast_one, div_one] at hfl hfu
  have hE53 : 53 ≤ fracExp m 1 := by
    by_contra hc
    push_neg at hc
    have h1 : (2 : ℚ) ^ (fracExp m 1 + 1) ≤ (2 : ℚ) ^ (53 : ℤ) :=
      zpow_le_zpow_right₀ (by norm_num) (by omega)
    have h53 : (2 : ℚ) ^ (53 : ℤ) = ((2 ^ 53 : ℕ) : ℚ) := by
      rw [show (53 : ℤ) = ((53 : ℕ) : ℤ) from rfl, zpow_natCast_q]
    rw [h53] at h1
    have hlt : (m : ℚ) < ((2 ^ 53 : ℕ) : ℚ) := hfu.trans_le h1
    have hlt2 : m < 2 ^ 53 := by exact_mod_cast hlt
    omega
  have hane : m ≠ 0 := by omega
  simp only [roundFrac] at hr
  rw [if_neg hane, if_neg (by omega : ¬ fracExp m 1 < -1022),
    if_neg (by omega : ¬ fracExp m 1 ≤ 52)] at hr
  by_cases hg : 1023 < fracExp m 1 ∨
      (fracExp m 1 = 1023 ∧ rneFrac m (1 * 2 ^ (fracExp m 1 - 52).toNat) = 2 ^ 53)
  · rw [if_pos hg] at hr
    exact absurd hr (by simp)
  · rw [if_neg hg] at hr
    have hpair := Option.some.inj hr
    have hsg : rneFrac m (1 * 2 ^ (fracExp m 1 - 52).toNat) = sg :=
      congrArg Prod.fst hpair
    have he : fracExp m 1 - 52 = e := congrArg Prod.snd hpair
    have he0 : (0 : ℤ) ≤ e := by omega
    have he1 : 1 ≤ e.toNat := by omega
    have hEN : (2 : ℚ) ^ fracExp m 1 = ((2 ^ (fracExp m 1).toNat : ℕ) : ℚ) := by
      rw [← zpow_natCast_q]
      congr 1
      omega
    have hmE : 2 ^ (fracExp m 1).toNat ≤ m := by
      rw [hEN] at hfl
      exact_mod_cast hfl
    have hK : (fracExp m 1 - 52).toNat = (fracExp m 1).toNat - 52 := by omega
    have hsg52 : 2 ^ 52 ≤ sg := by
      rw [← hsg, one_mul]
      refine le_trans ?_ (rneFrac_ge_div _ _)
      rw [hK]
      have hdiv : 2 ^ 52 = 2 ^ (fracExp m 1).toNat / 2 ^ ((fracExp m 1).toNat - 52) := by
        rw [Nat.pow_div (by omega) (by norm_num)]
        congr 1
        omega
      rw [hdiv]
      exact Nat.div_le_div_right hmE
    simp only [div3370, if_pos he0]
    have hb2 : 2 ^ 52 * 2 ≤ sg * 2 ^ e.toNat := by
      apply Nat.mul_le_mul hsg52
      calc (2 : ℕ) = 2 ^ 1 := rfl
        _ ≤ 2 ^ e.toNat := Nat.pow_le_pow_right (by norm_num) he1
    have hb' : 2 * 3370 < sg * 2 ^ e.toNat := by
      calc 2 * 3370 < 2 ^ 52 * 2 := by norm_num
        _ ≤ sg * 2 ^ e.toNat := hb2
    exact roundFrac_small_zero 3370 (sg * 2 ^ e.toNat) (by norm_num) (by omega) hb'

/-- C5 (amended): on an input of the form `K kWh/100 mi`, with `K` a
well-formed decimal token of mantissa `m` and `f` fractional digits
whose IEEE binary64 value `float(K) = roundFrac m (10 ^ f)` is finite
and positive, `parse_fuel_economy` returns city and highway absent and
`combined = int(3370 / K)` evaluated in double precision: the correctly
rounded double quotient `div3370` truncated toward zero by `int()`
(`dfloor`), with the `OverflowError` of `int()` when the quotient
overflows to infinity.  When `K` is a positive integer (`f = 0`) this
equals the exact floor `⌊3370 / K⌋ = 3370 / m` — the binary rounding
never crosses an integer boundary there — so the conversion truncates
and does not round to the nearest integer. -/
theorem parse_fuel_economy_kwh_floor
    (tok : List Nat) (m f sg : Nat) (e : Int)
    (hne : tok ≠ []) (hchars : ∀ c ∈ tok, isDigitOrDot c = true)
    (hfloat : pyFloatDec tok = some (m, f))
    (hkwh : roundFrac m (10 ^ f) = some (sg, e)) (hpos : 0 < sg) :
    parse_fuel_economy (tok ++ strCodes " kWh/100 mi") =
      (match div3370 sg e with
       | none => .error ()
       | some (s2, e2) => .ok (none, none, some (dfloor s2 e2))) ∧
    (f = 0 → ∃ s2 e2, div3370 sg e = some (s2, e2) ∧
      dfloor s2 e2 = 3370 / m) := by
  have hsfx : strCodes " kWh/100 mi" =
      [32, 107, 87, 104, 47, 49, 48, 48, 32, 109, 105] := by decide
  have hempty : (tok ++ strCodes " kWh/100 mi").isEmpty = false := by
    cases tok with
    | nil => exact absurd rfl hne
    | cons c t => rfl
  have hcity : searchNumAfter [99, 105, 116, 121]
      (tok ++ strCodes " kWh/100 mi") = none := by
    rw [searchNumAfter_append tok _ fun c hc => by
      have h := tok_char_facts (hchars c hc)
      omega]
    rw [hsfx]; decide
  have hhwy : searchNumAfter [104, 119, 121]
      (tok ++ strCodes " kWh/100 mi") = none := by
    rw [searchNumAfter_append tok _ fun c hc => by
      have h := tok_char_facts (hchars c hc)
      omega]
    rw [hsfx]; decide
  have hcomb : searchComb (tok ++ strCodes " kWh/100 mi") = none := by
    rw [searchComb_append tok _ fun c hc => by
      have h := tok_char_facts (hchars c hc)
      omega]
    rw [hsfx]; decide
  have hstrip : pyStrip (tok ++ strCodes " kWh/100 mi") =
      tok ++ strCodes " kWh/100 mi" := by
    apply pyStrip_eq_self
    · cases tok with
      | nil => exact absurd rfl hne
      | cons c t =>
        have h := tok_char_facts (hchars c (List.mem_cons_self ..))
        simp only [List.cons_append]
        exact List.dropWhile_cons_of_neg (by simp [h.2.2])
    · rw [List.reverse_append, hsfx]
      have hr : ([32, 107, 87, 104, 47, 49, 48, 48, 32, 109, 105] :
          List Nat).reverse = 105 :: [109, 32, 48, 48, 49, 47, 104, 87, 107, 32] := by
        decide
      rw [hr, List.cons_append]
      exact List.dropWhile_cons_of_neg (by decide)
  have hmpge : matchMPGe (tok ++ strCodes " kWh/100 mi") = none := by
    cases hdw : tok.dropWhile isDigitCode with
    | nil =>
      have hall : ∀ c ∈ tok, isDigitCode c = true := by
        rw [← List.dropWhile_eq_nil_iff]
        exact hdw
      have hd : ((tok ++ strCodes " kWh/100 mi").dropWhile isDigitCode).dropWhile
          pyIsSpace = 107 :: [87, 104, 47, 49, 48, 48, 32, 109, 105] := by
        rw [dropWhile_append_all hall, hsfx]; decide
      simp only [matchMPGe, hd]
      simp [matchLit, lowerCode]
    | cons c' r =>
      have hc' : c' = 46 := by
        have hmem : c' ∈ tok := mem_of_mem_dropWhile (l := tok)
          (p := isDigitCode) (hdw ▸ List.mem_cons_self ..)
        have hnd : isDigitCode c' = false := dropWhile_head_false hdw
        rcases isDigitOrDot_elim (hchars c' hmem) with h | h
        · exact h
        · exfalso
          simp [isDigitCode] at hnd
          omega
      subst hc'
      have hd : ((tok ++ strCodes " kWh/100 mi").dropWhile isDigitCode).dropWhile
          pyIsSpace = 46 :: (r ++ strCodes " kWh/100 mi") := by
        rw [dropWhile_append_ne hdw]
        exact List.dropWhile_cons_of_neg (by decide)
      simp only [matchMPGe, hd]
      simp [matchLit, lowerCode]
  have htw : (tok ++ strCodes " kWh/100 mi").takeWhile isDigitOrDot = tok := by
    rw [takeWhile_append_all hchars]
    rw [show (strCodes " kWh/100 mi").takeWhile isDigitOrDot = [] from by decide]
    exact List.append_nil tok
  have hdw2 : ((tok ++ strCodes " kWh/100 mi").dropWhile isDigitOrDot).dropWhile
      pyIsSpace = [107, 87, 104, 47, 49, 48, 48, 32, 109, 105] := by
    rw [dropWhile_append_all hchars, hsfx]; decide
  have htokne : tok.isEmpty = false := by
    cases tok with
    | nil => exact absurd rfl hne
    | cons c t => rfl
  have hktok : kwhTok (tok ++ strCodes " kWh/100 mi") = some tok := by
    simp only [kwhTok, htw, hdw2, htokne]
    simp [matchLit, lowerCode]
  constructor
  · simp only [parse_fuel_economy, hempty, hcity, hhwy, hcomb, hstrip, hmpge,
      hktok, hfloat, hkwh]
    simp [hpos]
  · intro hf0
    subst hf0
    rw [pow_zero] at hkwh
    have hm1 : 1 ≤ m := by
      by_contra hc
      push_neg at hc
      have hm0 : m = 0 := by omega
      subst hm0
      rw [show roundFrac 0 1 = some (0, 0) from rfl] at hkwh
      have h0 := congrArg Prod.fst (Option.some.inj hkwh)
      simp at h0
      omega
    by_cases hbig : m ≤ 2 ^ 53
    · exact div3370_roundFrac_one m sg e hm1 hbig hkwh
    · obtain ⟨s2, e2, hd, hdf⟩ := div3370_roundFrac_one_big m sg e (by omega) hkwh
      refine ⟨s2, e2, hd, ?_⟩
      rw [hdf]
      have h3370 : (3370 : ℕ) < 2 ^ 53 := by norm_num
      exact (Nat.div_eq_of_lt (by omega)).symm

/-- C5 counterexample: on `"6 kWh/100 mi"` the code computes
`int(3370 / 6.0) = 561`, whereas rounding `3370 / 6` to the nearest
integer gives `562` — so `combined = round(3370 / K)` is false as
stated.  Moreover on `"33.7 kWh/100 mi"` the binary64 value of `33.7`
exceeds `337 / 10`, so the code returns `99` although both the rounding
and the exact floor of `3370 / (337 / 10) = 100` are `100`: the result
is `int(3370 / K)` in double precision, not any exact-arithmetic
rounding. -/
theorem parse_fuel_economy_kwh_not_round :
    (parse_fuel_economy (strCodes "6 kWh/100 mi") = .ok (none, none, some 561) ∧
      round ((3370 : ℚ) / 6) = 562 ∧ (561 : ℤ) ≠ 562) ∧
    (parse_fuel_economy (strCodes "33.7 kWh/100 mi") = .ok (none, none, some 99) ∧
      round ((3370 : ℚ) / (337 / 10)) = 100 ∧
      ⌊(3370 : ℚ) / (337 / 10)⌋ = 100 ∧ (99 : ℤ) ≠ 100) := by
  refine ⟨⟨by decide, ?_, by decide⟩, by decide, ?_, ?_, by decide⟩
  · norm_num [round_eq]
  · norm_num [round_eq]
  · norm_num

/-- Witness for `parse_fuel_economy_kwh_floor` at `K = 6`
(`float(6) = 6755399441055744 * 2 ^ (-50)`). -/
theorem parse_fuel_economy_kwh_floor_witness :
    parse_fuel_economy (strCodes "6" ++ strCodes " kWh/100 mi") =
      (match div3370 6755399441055744 (-50) with
       | none => .error ()
       | some (s2, e2) => .ok (none, none, some (dfloor s2 e2))) ∧
    ((0 : ℕ) = 0 → ∃ s2 e2, div3370 6755399441055744 (-50) = some (s2, e2) ∧
      dfloor s2 e2 = 3370 / 6) :=
  parse_fuel_economy_kwh_floor (strCodes "6") 6 0 6755399441055744 (-50)
    (by decide) (by decide) (by decide) (by decide) (by decide)
/-- The `startsWithCodes` tests for a literal prefix. -/
theorem startsWithCodes_iff (pat s : List Nat) :
    startsWithCodes pat s = true ↔ ∃ rest, s = pat ++ rest := by
  induction pat generalizing s with
  | nil => simp [startsWithCodes]
  | cons p ps ih =>
    cases s with
    | nil => simp [startsWithCodes]
    | cons c cs =>
      simp only [startsWithCodes, Bool.and_eq_true, decide_eq_true_eq, ih,
        List.cons_append, List.cons.injEq]
      constructor
      · rintro ⟨rfl, rest, rfl⟩
        exact ⟨rest, rfl, rfl⟩
      · rintro ⟨rest, rfl, rfl⟩
        exact ⟨rfl, rest, rfl⟩

/-- The `containsSub` is Python's substring test. -/
theorem containsSub_iff (pat s : List Nat) :
    containsSub pat s = true ↔ ∃ pre post, s = pre ++ pat ++ post := by
  induction s with
  | nil =>
    simp only [containsSub, List.isEmpty_iff]
    constructor
    · rintro rfl
      exact ⟨[], [], rfl⟩
    · rintro ⟨pre, post, h⟩
      cases pre <;> simp_all
  | cons c cs ih =>
    simp only [containsSub, Bool.or_eq_true, startsWithCodes_iff, ih]
    constructor
    · rintro (⟨rest, hrest⟩ | ⟨pre, post, h⟩)
      · exact ⟨[], rest, by simp [hrest]⟩
      · exact ⟨c :: pre, post, by simp [h]⟩
    · rintro ⟨pre, post, h⟩
      cases pre with
      | nil => exact Or.inl ⟨post, by simpa using h⟩
      | cons a pre' =>
        simp only [List.cons_append, List.cons.injEq] at h
        exact Or.inr ⟨pre', post, h.2⟩

/-- C7: `_is_blocked(page_source, title)` is true if and only if some
phrase of the fixed `_BLOCK_INDICATORS` list is a substring of the
lowercased concatenation of the title, a space, and the first 5000
characters of the page text; and whenever it is true,
`navigate_to_car_model` returns `blocked` — the block check runs before
the not-found, redirect and table checks. -/
theorem is_blocked_substring_and_first :
    (∀ page_source title : List Nat,
      _is_blocked page_source title = true ↔
        ∃ ind ∈ _BLOCK_INDICATORS, ∃ pre post,
          pyLower (title ++ 32 :: page_source.take 5000) = pre ++ ind ++ post) ∧
    (∀ p : PageObs, _is_blocked p.page_source p.title = true →
      navigate_to_car_model p = .blocked) := by
  constructor
  · intro ps t
    simp only [_is_blocked, List.any_eq_true, containsSub_iff]
  · intro p h
    simp [navigate_to_car_model, h]

/-- Witness for `is_blocked_substring_and_first` on a CAPTCHA page. -/
theorem is_blocked_substring_and_first_witness :
    (_is_blocked (strCodes "Please verify you are a human to continue")
        (strCodes "KBB.com") = true ↔
      ∃ ind ∈ _BLOCK_INDICATORS, ∃ pre post,
        pyLower (strCodes "KBB.com" ++
          32 :: (strCodes "Please verify you are a human to continue").take 5000) =
          pre ++ ind ++ post) ∧
    navigate_to_car_model
      ⟨strCodes "Please verify you are a human to continue", strCodes "KBB.com",
        strCodes "https://www.kbb.com/audi/a3/2017/specs/", true, true, 1⟩ =
      .blocked := by
  constructor
  · exact is_blocked_substring_and_first.1 _ _
  · exact is_blocked_substring_and_first.2 _ (by decide)

/-- C8: the lenient tab-switch policy.  Once a tab element was clicked
(or found already selected) `select_body_type` returns `True`, whatever
signatures the bounded poll loop observes — in particular when the
signature never changes; `False` arises only from the no-element-found
path. -/
theorem select_body_type_lenient :
    (∀ old_signature sigs,
      select_body_type .clicked old_signature sigs = true) ∧
    (∀ old_signature sigs,
      select_body_type .alreadySelected old_signature sigs = true) ∧
    (∀ outcome old_signature sigs,
      select_body_type outcome old_signature sigs = false →
        outcome = .notFound) := by
  have hwait : ∀ old sigs, waitForChange old sigs = true := by
    intro old sigs
    induction sigs with
    | nil => rfl
    | cons s rest ih =>
      by_cases h : s ≠ "" ∧ s ≠ old <;> simp [waitForChange, h, ih]
  refine ⟨fun old sigs => hwait old sigs, fun _ _ => rfl, ?_⟩
  intro outcome old sigs h
  cases outcome with
  | alreadySelected => simp [select_body_type] at h
  | clicked => simp [select_body_type, hwait] at h
  | notFound => rfl

/-- Witness for `select_body_type_lenient`: a clicked tab whose content
signature never changes still reports success. -/
theorem select_body_type_lenient_witness :
    select_body_type .clicked "2017 Audi A3" ["2017 Audi A3", "2017 Audi A3", ""] = true ∧
    select_body_type .alreadySelected "x" [] = true ∧
    ClickOutcome.notFound = ClickOutcome.notFound := by
  refine ⟨select_body_type_lenient.1 _ _, select_body_type_lenient.2.1 _ _, ?_⟩
  exact select_body_type_lenient.2.2 .notFound "x" [] (by decide)
/-- Looking a column up in a written-out row. -/
theorem lookup_writeRowCols (cols : List String) (c : String) (r : Row) :
    (writeRowCols cols r).lookup c =
      if c ∈ cols then some (rowGet r c) else none := by
  induction cols with
  | nil => simp [writeRowCols]
  | cons a cs ih =>
    by_cases hca : c = a
    · subst hca
      simp [writeRowCols, List.lookup]
    · have hbeq : (c == a) = false := by simp [hca]
      have step : (writeRowCols (a :: cs) r).lookup c =
          (writeRowCols cs r).lookup c := by
        rw [show writeRowCols (a :: cs) r =
          (a, rowGet r a) :: writeRowCols cs r from rfl]
        simp [List.lookup, hbeq]
      rw [step, ih]
      simp [hca]

/-- Persisting a row through the fixed schema preserves its natural key
(all five key columns are part of `FIXED_COLUMNS`). -/
theorem rowKey_writeRowCols_fixed (r : Row) :
    rowKey (writeRowCols FIXED_COLUMNS r) = rowKey r := by
  have h1 : ("make" : String) ∈ FIXED_COLUMNS := by decide
  have h2 : ("model" : String) ∈ FIXED_COLUMNS := by decide
  have h3 : ("year" : String) ∈ FIXED_COLUMNS := by decide
  have h4 : ("bodytype" : String) ∈ FIXED_COLUMNS := by decide
  have h5 : ("trim" : String) ∈ FIXED_COLUMNS := by decide
  simp [rowKey, rowGet, lookup_writeRowCols, h1, h2, h3, h4, h5]

/-- When every row's key is already known, the dedup filter keeps
nothing. -/
theorem dedupNewRows_nil_of_mem {ex : List CsvKey} {rows : List Row}
    (h : ∀ r ∈ rows, rowKey r ∈ ex) : dedupNewRows ex rows = [] := by
  induction rows with
  | nil => rfl
  | cons r rs ih =>
    have hr := h r (List.mem_cons_self ..)
    simp only [dedupNewRows, if_pos hr]
    exact ih fun r' h' => h r' (List.mem_cons_of_mem _ h')

/-- Every processed row's key ends up either in the incoming key set or
among the keys of the accepted rows. -/
theorem mem_keys_dedup {rows : List Row} {ex : List CsvKey} {r : Row}
    (h : r ∈ rows) :
    rowKey r ∈ ex ∨ rowKey r ∈ (dedupNewRows ex rows).map rowKey := by
  induction rows generalizing ex with
  | nil => simp at h
  | cons r0 rs ih =>
    by_cases h0 : rowKey r0 ∈ ex
    · rcases List.mem_cons.mp h with rfl | hr
      · exact Or.inl h0
      · simpa only [dedupNewRows, if_pos h0] using ih hr
    · rcases List.mem_cons.mp h with rfl | hr
      · right
        simp [dedupNewRows, h0]
      · rcases @ih (rowKey r0 :: ex) hr with h1 | h1
        · rcases List.mem_cons.mp h1 with heq | h2
          · right
            simp [dedupNewRows, h0, heq]
          · exact Or.inl h2
        · right
          simp only [dedupNewRows, if_neg h0, List.map_cons]
          exact List.mem_cons_of_mem _ h1

/-- Rows whose key is absent contribute a zero count. -/
theorem countP_key_zero {rows : List Row} {k : CsvKey}
    (h : k ∉ rows.map rowKey) :
    (rows.countP fun r => decide (rowKey r = k)) = 0 := by
  rw [List.countP_eq_zero]
  intro r hr
  simp only [decide_eq_true_eq]
  intro hk
  exact h (hk ▸ List.mem_map_of_mem rowKey hr)

/-- The key set loaded from a file state. -/
theorem load_keys_getD (st : CsvFileState) :
    _load_existing_keys st = (st.getD []).map rowKey := by
  cases st <;> rfl

/-- C2: `CsvExporter.append_to_csv` is idempotent and dedup-safe on the
natural key: appending the same rows a second time changes nothing (row
count and content unchanged); a single row whose key is already persisted
is skipped entirely; and a key appearing twice — across two separate
calls or twice within one call — is persisted exactly once. -/
theorem append_to_csv_idempotent_dedup :
    (∀ st rows, append_to_csv (append_to_csv st rows) rows =
      append_to_csv st rows) ∧
    (∀ st r, rowKey r ∈ _load_existing_keys st → append_to_csv st [r] = st) ∧
    (∀ st r1 r2, rowKey r1 = rowKey r2 →
      rowKey r1 ∉ _load_existing_keys st →
      fileCountKey (append_to_csv (append_to_csv st [r1]) [r2]) (rowKey r1) = 1 ∧
      fileCountKey (append_to_csv st [r1, r2]) (rowKey r1) = 1) := by
  refine ⟨?_, ?_, ?_⟩
  · intro st rows
    by_cases h : dedupNewRows (_load_existing_keys st) rows = []
    · have e : append_to_csv st rows = st := by simp [append_to_csv, h]
      rw [e]
      exact e
    · have hne : (dedupNewRows (_load_existing_keys st) rows).isEmpty = false := by
        simpa [List.isEmpty_iff] using h
      have e : append_to_csv st rows = some (st.getD [] ++
          (dedupNewRows (_load_existing_keys st) rows).map
            (writeRowCols FIXED_COLUMNS)) := by
        simp [append_to_csv, hne]
      have hkeys : ∀ r ∈ rows,
          rowKey r ∈ _load_existing_keys (append_to_csv st rows) := by
        intro r hr
        rw [e, load_keys_getD]
        simp only [Option.getD_some, List.map_append, List.mem_append,
          List.map_map]
        rcases @mem_keys_dedup rows (_load_existing_keys st) r hr with h1 | h1
        · left
          rw [load_keys_getD] at h1
          exact h1
        · right
          have hcongr : (dedupNewRows (_load_existing_keys st) rows).map
              (rowKey ∘ writeRowCols FIXED_COLUMNS) =
              (dedupNewRows (_load_existing_keys st) rows).map rowKey :=
            List.map_congr_left fun a _ => rowKey_writeRowCols_fixed a
          rw [hcongr]
          exact h1
      have hd2 : dedupNewRows
          (_load_existing_keys (append_to_csv st rows)) rows = [] :=
        dedupNewRows_nil_of_mem hkeys
      set F := append_to_csv st rows with hF
      simp [append_to_csv, hd2]
  · intro st r h
    have hd : dedupNewRows (_load_existing_keys st) [r] = [] := by
      simp [dedupNewRows, h]
    simp [append_to_csv, hd]
  · intro st r1 r2 hk hnot
    have h1 : dedupNewRows (_load_existing_keys st) [r1] = [r1] := by
      simp [dedupNewRows, hnot]
    have h1ne : (dedupNewRows (_load_existing_keys st) [r1]).isEmpty = false := by
      simp [h1]
    have e1 : append_to_csv st [r1] =
        some (st.getD [] ++ [writeRowCols FIXED_COLUMNS r1]) := by
      simp [append_to_csv, h1ne, h1]
    have hz : ((st.getD []).countP fun r => decide (rowKey r = rowKey r1)) = 0 := by
      apply countP_key_zero
      rw [← load_keys_getD]
      exact hnot
    constructor
    · have hmem : rowKey r2 ∈ _load_existing_keys (append_to_csv st [r1]) := by
        rw [e1]
        simp [_load_existing_keys, rowKey_writeRowCols_fixed, ← hk]
      have h2 : dedupNewRows
          (_load_existing_keys (append_to_csv st [r1])) [r2] = [] := by
        simp [dedupNewRows, hmem]
      have e2 : append_to_csv (append_to_csv st [r1]) [r2] =
          append_to_csv st [r1] := by
        set F := append_to_csv st [r1] with hF
        simp [append_to_csv, h2]
      rw [e2, e1]
      simp [fileCountKey, List.countP_append, hz, List.countP_cons,
        rowKey_writeRowCols_fixed]
    · have hd : dedupNewRows (_load_existing_keys st) [r1, r2] = [r1] := by
        have : rowKey r2 ∈ rowKey r1 :: _load_existing_keys st := by
          simp [← hk]
        simp [dedupNewRows, hnot, this]
      have hdne : (dedupNewRows (_load_existing_keys st) [r1, r2]).isEmpty = false := by
        simp [hd]
      have e : append_to_csv st [r1, r2] =
          some (st.getD [] ++ [writeRowCols FIXED_COLUMNS r1]) := by
        simp [append_to_csv, hdne, hd]
      rw [e]
      simp [fileCountKey, List.countP_append, hz, List.countP_cons,
        rowKey_writeRowCols_fixed]

/-- Witness for `append_to_csv_idempotent_dedup` on a concrete row and
store. -/
theorem append_to_csv_idempotent_dedup_witness :
    (append_to_csv (append_to_csv none
        [[("make", "Audi"), ("model", "A3"), ("year", "2017"),
          ("bodytype", "Sedan"), ("trim", "Premium")]])
        [[("make", "Audi"), ("model", "A3"), ("year", "2017"),
          ("bodytype", "Sedan"), ("trim", "Premium")]] =
      append_to_csv none
        [[("make", "Audi"), ("model", "A3"), ("year", "2017"),
          ("bodytype", "Sedan"), ("trim", "Premium")]]) ∧
    fileCountKey (append_to_csv (append_to_csv none
        [[("make", "Audi"), ("model", "A3"), ("year", "2017"),
          ("bodytype", "Sedan"), ("trim", "Premium")]])
        [[("make", "Audi"), ("model", "A3"), ("year", "2017"),
          ("bodytype", "Sedan"), ("trim", "Premium")]])
      (rowKey [("make", "Audi"), ("model", "A3"), ("year", "2017"),
        ("bodytype", "Sedan"), ("trim", "Premium")]) = 1 ∧
    fileCountKey (append_to_csv none
        [[("make", "Audi"), ("model", "A3"), ("year", "2017"),
          ("bodytype", "Sedan"), ("trim", "Premium")],
         [("make", "Audi"), ("model", "A3"), ("year", "2017"),
          ("bodytype", "Sedan"), ("trim", "Premium")]])
      (rowKey [("make", "Audi"), ("model", "A3"), ("year", "2017"),
        ("bodytype", "Sedan"), ("trim", "Premium")]) = 1 := by
  refine ⟨append_to_csv_idempotent_dedup.1 none _, ?_, ?_⟩
  · exact (append_to_csv_idempotent_dedup.2.2 none _ _ rfl (by decide)).1
  · exact (append_to_csv_idempotent_dedup.2.2 none _ _ rfl (by decide)).2
/-- Membership in the header-union accumulator. -/
theorem mem_unionInto (c : String) (acc cols : List String) :
    c ∈ unionInto acc cols ↔ c ∈ acc ∨ c ∈ cols := by
  induction cols generalizing acc with
  | nil => simp [unionInto]
  | cons a cs ih =>
    have step : unionInto acc (a :: cs) =
        unionInto (if a ∈ acc then acc else acc ++ [a]) cs := rfl
    rw [step, ih]
    by_cases ha : a ∈ acc
    · simp only [if_pos ha, List.mem_cons]
      constructor
      · rintro (h | h)
        · exact Or.inl h
        · exact Or.inr (Or.inr h)
      · rintro (h | rfl | h)
        · exact Or.inl h
        · exact Or.inl ha
        · exact Or.inr h
    · simp only [if_neg ha, List.mem_append, List.mem_cons,
        List.not_mem_nil, or_false]
      constructor
      · rintro ((h | rfl) | h)
        · exact Or.inl h
        · exact Or.inr (Or.inl rfl)
        · exact Or.inr (Or.inr h)
      · rintro (h | rfl | h)
        · exact Or.inl (Or.inl h)
        · exact Or.inl (Or.inr rfl)
        · exact Or.inr h

/-- The header-union accumulator never introduces duplicates. -/
theorem nodup_unionInto (acc cols : List String) (h : acc.Nodup) :
    (unionInto acc cols).Nodup := by
  induction cols generalizing acc with
  | nil => exact h
  | cons a cs ih =>
    have step : unionInto acc (a :: cs) =
        unionInto (if a ∈ acc then acc else acc ++ [a]) cs := rfl
    rw [step]
    apply ih
    by_cases ha : a ∈ acc
    · simpa [ha]
    · simp [ha, List.nodup_append, h]

/-- A column is in the merged header iff some worker file has it. -/
theorem mem_mergeHeaders (c : String) (files : List CsvFile) :
    c ∈ mergeHeaders files ↔ ∃ f ∈ files, c ∈ f.header := by
  have key : ∀ (fs : List CsvFile) (acc : List String),
      c ∈ fs.foldl (fun a f => unionInto a f.header) acc ↔
        c ∈ acc ∨ ∃ f ∈ fs, c ∈ f.header := by
    intro fs
    induction fs with
    | nil => simp
    | cons f fs ih =>
      intro acc
      simp only [List.foldl_cons, ih, mem_unionInto, List.mem_cons]
      constructor
      · rintro ((h | h) | ⟨g, hg, hc⟩)
        · exact Or.inl h
        · exact Or.inr ⟨f, Or.inl rfl, h⟩
        · exact Or.inr ⟨g, Or.inr hg, hc⟩
      · rintro (h | ⟨g, (rfl | hg), hc⟩)
        · exact Or.inl (Or.inl h)
        · exact Or.inl (Or.inr hc)
        · exact Or.inr ⟨g, hg, hc⟩
  simpa [mergeHeaders] using key files []

/-- The merged header has no duplicate column. -/
theorem nodup_mergeHeaders (files : List CsvFile) :
    (mergeHeaders files).Nodup := by
  have key : ∀ (fs : List CsvFile) (acc : List String), acc.Nodup →
      (fs.foldl (fun a f => unionInto a f.header) acc).Nodup := by
    intro fs
    induction fs with
    | nil => exact fun acc h => h
    | cons f fs ih =>
      intro acc hacc
      exact ih _ (nodup_unionInto acc f.header hacc)
  exact key files [] List.nodup_nil

/-- A dict with no binding for `c` looks `c` up to `none`. -/
theorem lookup_none_of_keys {r : Row} {c : String}
    (h : ∀ kv ∈ r, kv.1 ≠ c) : r.lookup c = none := by
  induction r with
  | nil => rfl
  | cons kv rest ih =>
    obtain ⟨k, v⟩ := kv
    have h1 : k ≠ c := h (k, v) (List.mem_cons_self ..)
    have hbeq : (c == k) = false := by
      simp
      exact fun hck => h1 hck.symm
    simp only [List.lookup, hbeq]
    exact ih fun kv h' => h kv (List.mem_cons_of_mem _ h')

/-- C6: merging worker CSVs produces the header union (first-seen order,
no duplicates) and keeps every input row, with a blank value in each
union column that the row's own file lacks. -/
theorem merge_one_csv_union_and_blanks
    (files : List CsvFile) (merged : CsvFile)
    (hm : _merge_one_csv files = some merged)
    (hwf : ∀ f ∈ files, ∀ r ∈ f.rows, ∀ kv ∈ r, kv.1 ∈ f.header) :
    (∀ c, c ∈ merged.header ↔ ∃ f ∈ files, c ∈ f.header) ∧
    merged.header.Nodup ∧
    merged.rows = (files.flatMap fun f => f.rows).map
      (writeRowCols merged.header) ∧
    (∀ f ∈ files, ∀ r ∈ f.rows, ∀ c ∈ merged.header, c ∉ f.header →
      (writeRowCols merged.header r).lookup c = some "") := by
  by_cases hfe : files.isEmpty
  · simp [_merge_one_csv, hfe] at hm
  · have hmerged : merged = ⟨mergeHeaders files,
        (files.flatMap fun f => f.rows).map
          (writeRowCols (mergeHeaders files))⟩ := by
      simp only [_merge_one_csv, hfe, Bool.false_eq_true, if_false,
        Option.some.injEq] at hm
      exact hm.symm
    subst hmerged
    refine ⟨fun c => mem_mergeHeaders c files, nodup_mergeHeaders files,
      rfl, ?_⟩
    intro f hf r hr c hc hcnot
    rw [lookup_writeRowCols, if_pos hc]
    have hnone : r.lookup c = none := lookup_none_of_keys fun kv hkv hk =>
      hcnot (hk ▸ hwf f hf r hr kv hkv)
    simp [rowGet, hnone]

/-- Witness for `merge_one_csv_union_and_blanks` on two single-column
worker files with disjoint columns. -/
theorem merge_one_csv_union_and_blanks_witness :
    ((⟨["a", "b"],
        [[("a", "1"), ("b", "")], [("a", ""), ("b", "2")]]⟩ : CsvFile).rows =
      ([(⟨["a"], [[("a", "1")]]⟩ : CsvFile),
        (⟨["b"], [[("b", "2")]]⟩ : CsvFile)].flatMap fun f => f.rows).map
        (writeRowCols (⟨["a", "b"],
          [[("a", "1"), ("b", "")], [("a", ""), ("b", "2")]]⟩ : CsvFile).header)) ∧
    (writeRowCols (⟨["a", "b"],
        [[("a", "1"), ("b", "")], [("a", ""), ("b", "2")]]⟩ : CsvFile).header
      [("a", "1")]).lookup "b" = some "" := by
  have h := merge_one_csv_union_and_blanks
    [⟨["a"], [[("a", "1")]]⟩, ⟨["b"], [[("b", "2")]]⟩]
    ⟨["a", "b"], [[("a", "1"), ("b", "")], [("a", ""), ("b", "2")]]⟩
    (by decide) (by decide)
  exact ⟨h.2.2.1, h.2.2.2 ⟨["a"], [[("a", "1")]]⟩ (by decide) [("a", "1")]
    (by decide) "b" (by decide) (by decide)⟩

/-- The `countP` distributes over `flatMap` as a sum. -/
theorem countP_flatMap {α β : Type} (g : α → List β) (p : β → Bool)
    (l : List α) :
    ((l.flatMap g).countP p) = (l.map fun a => (g a).countP p).sum := by
  induction l with
  | nil => rfl
  | cons a t ih => simp [List.flatMap_cons, List.countP_append, ih]

/-- The `length` distributes over `flatMap` as a sum. -/
theorem length_flatMap_sum {α β : Type} (g : α → List β) (l : List α) :
    (l.flatMap g).length = (l.map fun a => (g a).length).sum := by
  induction l with
  | nil => rfl
  | cons a t ih => simp [List.flatMap_cons, ih]

/-- Writing a row out over a column set containing all its keys preserves
every `get`, hence the natural key. -/
theorem rowKey_writeRowCols_of_keys {U : List String} {r : Row}
    (h : ∀ kv ∈ r, kv.1 ∈ U) : rowKey (writeRowCols U r) = rowKey r := by
  have hget : ∀ c, rowGet (writeRowCols U r) c = rowGet r c := by
    intro c
    by_cases hc : c ∈ U
    · simp [rowGet, lookup_writeRowCols, hc]
    · have hnone : r.lookup c = none := lookup_none_of_keys fun kv hkv hk =>
        hc (hk ▸ h kv hkv)
      simp [rowGet, lookup_writeRowCols, hc, hnone]
  simp [rowKey, hget]

/-- C10: the merge performs no deduplication — the merged file holds the
concatenation of all worker rows (the output row count is the sum of the
input row counts), and rows sharing a natural key across worker files all
survive: for every key, the merged count is the sum of the per-file
counts. -/
theorem merge_one_csv_no_dedup
    (files : List CsvFile) (merged : CsvFile)
    (hm : _merge_one_csv files = some merged)
    (hwf : ∀ f ∈ files, ∀ r ∈ f.rows, ∀ kv ∈ r, kv.1 ∈ f.header) :
    merged.rows.length = (files.map fun f => f.rows.length).sum ∧
    (∀ k : CsvKey,
      (merged.rows.countP fun r => decide (rowKey r = k)) =
        (files.map fun f =>
          f.rows.countP fun r => decide (rowKey r = k)).sum) := by
  by_cases hfe : files.isEmpty
  · simp [_merge_one_csv, hfe] at hm
  · have hmerged : merged = ⟨mergeHeaders files,
        (files.flatMap fun f => f.rows).map
          (writeRowCols (mergeHeaders files))⟩ := by
      simp only [_merge_one_csv, hfe, Bool.false_eq_true, if_false,
        Option.some.injEq] at hm
      exact hm.symm
    subst hmerged
    constructor
    · simp only [List.length_map]
      exact length_flatMap_sum _ files
    · intro k
      simp only [List.countP_map]
      have hcongr : ((files.flatMap fun f => f.rows).countP
          fun r => decide (rowKey (writeRowCols (mergeHeaders files) r) = k)) =
          ((files.flatMap fun f => f.rows).countP
            fun r => decide (rowKey r = k)) := by
        apply List.countP_congr
        intro r hr
        obtain ⟨f, hf, hrf⟩ := List.mem_flatMap.mp hr
        have hkeys : ∀ kv ∈ r, kv.1 ∈ mergeHeaders files := fun kv hkv =>
          (mem_mergeHeaders kv.1 files).mpr ⟨f, hf, hwf f hf r hrf kv hkv⟩
        simp [rowKey_writeRowCols_of_keys hkeys]
      calc ((files.flatMap fun f => f.rows).countP
            fun r => decide (rowKey (writeRowCols (mergeHeaders files) r) = k))
          = ((files.flatMap fun f => f.rows).countP
              fun r => decide (rowKey r = k)) := hcongr
        _ = (files.map fun f =>
              f.rows.countP fun r => decide (rowKey r = k)).sum :=
            countP_flatMap _ _ files

/-- Witness for `merge_one_csv_no_dedup`: two workers that both persisted
the same natural key still contribute two rows to the merged file. -/
theorem merge_one_csv_no_dedup_witness :
    ((⟨["make"], [[("make", "Audi")], [("make", "Audi")]]⟩ : CsvFile).rows.length =
      ([(⟨["make"], [[("make", "Audi")]]⟩ : CsvFile),
        (⟨["make"], [[("make", "Audi")]]⟩ : CsvFile)].map
          fun f => f.rows.length).sum) ∧
    ((⟨["make"], [[("make", "Audi")], [("make", "Audi")]]⟩ : CsvFile).rows.countP
        fun r => decide (rowKey r = ("Audi", "", "", "", ""))) =
      ([(⟨["make"], [[("make", "Audi")]]⟩ : CsvFile),
        (⟨["make"], [[("make", "Audi")]]⟩ : CsvFile)].map
          fun f => f.rows.countP
            fun r => decide (rowKey r = ("Audi", "", "", "", ""))).sum := by
  have h := merge_one_csv_no_dedup
    [⟨["make"], [[("make", "Audi")]]⟩, ⟨["make"], [[("make", "Audi")]]⟩]
    ⟨["make"], [[("make", "Audi")], [("make", "Audi")]]⟩
    (by decide) (by decide)
  exact ⟨h.1, h.2 ("Audi", "", "", "", "")⟩
/-- The `padOrTruncate` always yields exactly `num_trims` values. -/
theorem padOrTruncate_length (n : Nat) (vs : List (List Nat)) :
    (padOrTruncate n vs).length = n := by
  unfold padOrTruncate
  split
  · rename_i h
    simp only [List.length_append, List.length_replicate]
    omega
  · split
    · rename_i h
      simp only [List.length_take]
      omega
    · rename_i h1 h2
      omega

/-- Every entry of the spec-lookup loop carries `num_trims` values. -/
theorem buildSpecLookupGo_length {n : Nat} :
    ∀ (specs : List SpecDict) (seen : List (List Nat))
      (p : List Nat × List (List Nat)),
      p ∈ buildSpecLookupGo n seen specs → p.2.length = n := by
  intro specs
  induction specs with
  | nil =>
    intro seen p h
    simp [buildSpecLookupGo] at h
  | cons spec rest ih =>
    intro seen p h
    simp only [buildSpecLookupGo] at h
    split at h
    · exact ih seen p h
    · rcases List.mem_cons.mp h with rfl | h'
      · exact padOrTruncate_length n spec.values
      · exact ih _ p h'

/-- C3: the padding/truncation invariant.  Every entry of the lookup
built by `SchemaTransformer._build_spec_lookup` for `n` trims stores a
value list of length exactly `n`, and every entry produced by
`KBBDataParser.parse_table_data` stores a value list whose length is the
number of extracted trim names — short rows are padded with empty-string
values, long rows are truncated. -/
theorem spec_values_length_eq_trim_count :
    (∀ (specs : List SpecDict) (n : Nat) (p : List Nat × List (List Nat)),
      p ∈ _build_spec_lookup specs n → p.2.length = n) ∧
    (∀ (headers : List (List Nat)) (rows : List (List (List Nat)))
      (e : ParsedSpecEntry), e ∈ (parse_table_data headers rows).1 →
      e.values.length = (parse_table_data headers rows).2.length) := by
  constructor
  · intro specs n p h
    exact buildSpecLookupGo_length specs [] p h
  · intro headers rows e he
    have h2 : (parse_table_data headers rows).2 =
        _extract_trim_names_raw headers := rfl
    rw [h2]
    simp only [parse_table_data] at he
    obtain ⟨cells, _, hfe⟩ := List.mem_filterMap.mp he
    by_cases hlen : cells.length < 3
    · simp [hlen] at hfe
    · simp only [if_neg hlen, Option.some.injEq] at hfe
      subst hfe
      simp only
      split
      · rename_i h
        simp only [List.length_take]
        omega
      · split
        · rename_i h1 h2
          simp only [List.length_append, List.length_replicate]
          omega
        · rename_i h1 h2
          omega

/-- Witness for `spec_values_length_eq_trim_count`: a one-value spec row
padded to 3 trims, and a parsed table with 2 trims and one short row. -/
theorem spec_values_length_eq_trim_count_witness :
    ((strCodes "horsepower", [strCodes "220", [], []]) :
        List Nat × List (List Nat)).2.length = 3 ∧
    ((parse_table_data [[], [], strCodes "Premium", strCodes "Prestige"]
        [[strCodes "icon", strCodes "Horsepower", strCodes "220"]]).1.headD
        ⟨[], [], [], [], false⟩).values.length =
      (parse_table_data [[], [], strCodes "Premium", strCodes "Prestige"]
        [[strCodes "icon", strCodes "Horsepower", strCodes "220"]]).2.length := by
  constructor
  · exact spec_values_length_eq_trim_count.1
      [{ label := some (strCodes " Horsepower "), values := [strCodes "220"] }]
      3 _ (by decide)
  · exact spec_values_length_eq_trim_count.2 _ _ _ (by decide)

/-- Folding `add_vehicle` preserves the four-table lockstep. -/
theorem foldl_add_vehicle_eqLens
    (quads : List (Vehicle × VehicleSpecs × VehicleFeatures × VehicleScores))
    (d : FourTableDataset) (h : eqLens d) :
    eqLens (quads.foldl
      (fun ds q => ds.add_vehicle q.1 q.2.1 q.2.2.1 q.2.2.2) d) := by
  induction quads generalizing d with
  | nil => exact h
  | cons q qs ih =>
    apply ih
    obtain ⟨h1, h2, h3⟩ := h
    refine ⟨?_, ?_, ?_⟩ <;> simp [FourTableDataset.add_vehicle] <;> omega

/-- Folding `add_vehicle` appends the quadruples component-wise. -/
theorem foldl_add_vehicle_append
    (quads : List (Vehicle × VehicleSpecs × VehicleFeatures × VehicleScores))
    (d : FourTableDataset) :
    (quads.foldl
      (fun ds q => ds.add_vehicle q.1 q.2.1 q.2.2.1 q.2.2.2) d).vehicles =
        d.vehicles ++ quads.map (fun q => q.1) ∧
    (quads.foldl
      (fun ds q => ds.add_vehicle q.1 q.2.1 q.2.2.1 q.2.2.2) d).specs =
        d.specs ++ quads.map (fun q => q.2.1) ∧
    (quads.foldl
      (fun ds q => ds.add_vehicle q.1 q.2.1 q.2.2.1 q.2.2.2) d).features =
        d.features ++ quads.map (fun q => q.2.2.1) ∧
    (quads.foldl
      (fun ds q => ds.add_vehicle q.1 q.2.1 q.2.2.1 q.2.2.2) d).scores =
        d.scores ++ quads.map (fun q => q.2.2.2) := by
  induction quads generalizing d with
  | nil => simp
  | cons q qs ih =>
    obtain ⟨i1, i2, i3, i4⟩ := ih (d.add_vehicle q.1 q.2.1 q.2.2.1 q.2.2.2)
    refine ⟨?_, ?_, ?_, ?_⟩
    · rw [List.foldl_cons, i1]
      simp [FourTableDataset.add_vehicle]
    · rw [List.foldl_cons, i2]
      simp [FourTableDataset.add_vehicle]
    · rw [List.foldl_cons, i3]
      simp [FourTableDataset.add_vehicle]
    · rw [List.foldl_cons, i4]
      simp [FourTableDataset.add_vehicle]

/-- A successful `_create_specs` carries the id it was given. -/
theorem _create_specs_id {vid : Nat} {lookup : SpecLookup} {idx : Nat}
    {specs : VehicleSpecs} (h : _create_specs vid lookup idx = some specs) :
    specs.vehicle_id = vid := by
  simp only [_create_specs] at h
  split at h
  · exact absurd h (by simp)
  · obtain rfl := Option.some.inj h
    rfl

/-- The records built for one trim share the same vehicle id, and the
scores record has every score field absent. -/
theorem transformTrim_aligned {lookup : SpecLookup} {mk md : List Nat}
    {y : Int} {tn : List Nat} {idx : Nat} {raw : List Nat}
    {q : Vehicle × VehicleSpecs × VehicleFeatures × VehicleScores}
    (h : transformTrim lookup mk md y tn idx raw = some q) :
    q.1.vehicle_id = q.2.1.vehicle_id ∧
    q.1.vehicle_id = q.2.2.1.vehicle_id ∧
    q.1.vehicle_id = q.2.2.2.vehicle_id ∧
    scoresEmpty q.2.2.2 := by
  simp only [transformTrim] at h
  split at h
  · exact absurd h (by simp)
  · rename_i specs hspecs
    obtain rfl := Option.some.inj h
    refine ⟨?_, rfl, rfl, rfl, rfl, rfl, rfl, rfl⟩
    exact (_create_specs_id hspecs).symm

/-- Every quadruple produced by the per-trim loop comes from a successful
`transformTrim` call. -/
theorem transformTrimsGo_mem (lookup : SpecLookup) (mk md : List Nat)
    (y : Int) (tn : List Nat) :
    ∀ (raws : List (List Nat)) (idx : Nat) quads,
      transformTrimsGo lookup mk md y tn idx raws = some quads →
      ∀ q ∈ quads, ∃ i r, transformTrim lookup mk md y tn i r = some q := by
  intro raws
  induction raws with
  | nil =>
    intro idx quads h q hq
    simp only [transformTrimsGo, Option.some.injEq] at h
    subst h
    simp at hq
  | cons raw rest ih =>
    intro idx quads h q hq
    simp only [transformTrimsGo] at h
    split at h
    · exact absurd h (by simp)
    · rename_i q0 hq0
      split at h
      · exact absurd h (by simp)
      · rename_i qs hqs
        obtain rfl := Option.some.inj h
        rcases List.mem_cons.mp hq with rfl | hq'
        · exact ⟨idx, raw, hq0⟩
        · exact ih (idx + 1) qs hqs q hq'

/-- C9: the four-table alignment invariant.  `add_vehicle` appends
exactly one record to each table (so any sequence of additions keeps the
four tables the same length), and a successful `_transform_bodytype`
extends all four tables by one quadruple per trim, where each quadruple's
`Vehicle`, `VehicleSpecs`, `VehicleFeatures` and `VehicleScores` records
carry the same `vehicle_id` and the scores record has every score field
absent. -/
theorem four_table_alignment :
    (∀ (d : FourTableDataset) (v : Vehicle) (s : VehicleSpecs)
      (fe : VehicleFeatures) (sc : VehicleScores),
      (d.add_vehicle v s fe sc).vehicles.length = d.vehicles.length + 1 ∧
      (d.add_vehicle v s fe sc).specs.length = d.specs.length + 1 ∧
      (d.add_vehicle v s fe sc).features.length = d.features.length + 1 ∧
      (d.add_vehicle v s fe sc).scores.length = d.scores.length + 1) ∧
    (∀ (quads : List (Vehicle × VehicleSpecs × VehicleFeatures × VehicleScores))
      (d : FourTableDataset), eqLens d →
      eqLens (quads.foldl
        (fun ds q => ds.add_vehicle q.1 q.2.1 q.2.2.1 q.2.2.2) d)) ∧
    (∀ (d : FourTableDataset) (specifications : List SpecDict)
      (trim_names : List (List Nat)) (tab_name_field : Option (List Nat))
      (make model year body_type : List Nat) (d' : FourTableDataset),
      _transform_bodytype d specifications trim_names tab_name_field make
        model year body_type = some d' →
      eqLens d →
      eqLens d' ∧
      ∃ quads : List (Vehicle × VehicleSpecs × VehicleFeatures × VehicleScores),
        d'.vehicles = d.vehicles ++ quads.map (fun q => q.1) ∧
        d'.specs = d.specs ++ quads.map (fun q => q.2.1) ∧
        d'.features = d.features ++ quads.map (fun q => q.2.2.1) ∧
        d'.scores = d.scores ++ quads.map (fun q => q.2.2.2) ∧
        ∀ q ∈ quads,
          q.1.vehicle_id = q.2.1.vehicle_id ∧
          q.1.vehicle_id = q.2.2.1.vehicle_id ∧
          q.1.vehicle_id = q.2.2.2.vehicle_id ∧
          scoresEmpty q.2.2.2) := by
  refine ⟨?_, foldl_add_vehicle_eqLens, ?_⟩
  · intro d v s fe sc
    refine ⟨?_, ?_, ?_, ?_⟩ <;> simp [FourTableDataset.add_vehicle]
  · intro d specifications trim_names tab_name_field make model year
      body_type d' hm hd
    simp only [_transform_bodytype] at hm
    by_cases hempty : (specifications.isEmpty || trim_names.isEmpty) = true
    · rw [if_pos hempty] at hm
      obtain rfl := Option.some.inj hm
      exact ⟨hd, [], by simp, by simp, by simp, by simp, by simp⟩
    · rw [if_neg hempty] at hm
      cases hpy : pyInt year with
      | none =>
        simp [hpy] at hm
      | some y =>
        simp only [hpy] at hm
        cases hq : transformTrimsGo
            (_build_spec_lookup specifications trim_names.length) make model y
            (tab_name_field.getD body_type) 0 trim_names with
        | none =>
          simp [hq] at hm
        | some quads =>
          simp only [hq, Option.some.injEq] at hm
          subst hm
          obtain ⟨a1, a2, a3, a4⟩ := foldl_add_vehicle_append quads d
          refine ⟨foldl_add_vehicle_eqLens quads d hd, quads, a1, a2, a3, a4,
            ?_⟩
          intro q hqq
          obtain ⟨i, r, hir⟩ := transformTrimsGo_mem _ _ _ _ _ _ _ _
            hq q hqq
          exact transformTrim_aligned hir

set_option maxRecDepth 20000 in
/-- Witness for `four_table_alignment`: transforming one body type with a
single trim and a single `Horsepower` row from the empty dataset yields
four tables in lockstep. -/
theorem four_table_alignment_witness :
    eqLens
      { vehicles := [{ vehicle_id := 7148434824215597763,
                       brand := strCodes "Audi", model := strCodes "A3",
                       year := 2017, trim := strCodes "Premium",
                       body_type := strCodes "Sedan" }],
        specs := [{ vehicle_id := 7148434824215597763,
                    horsepower := some 220 }],
        features := [{ vehicle_id := 7148434824215597763 }],
        scores := [{ vehicle_id := 7148434824215597763 }] } :=
  (four_table_alignment.2.2 {}
    [{ label := some (strCodes "Horsepower"), values := [strCodes "220"] }]
    [strCodes "Premium"] none (strCodes "Audi") (strCodes "A3")
    (strCodes "2017") (strCodes "Sedan")
    { vehicles := [{ vehicle_id := 7148434824215597763,
                     brand := strCodes "Audi", model := strCodes "A3",
                     year := 2017, trim := strCodes "Premium",
                     body_type := strCodes "Sedan" }],
      specs := [{ vehicle_id := 7148434824215597763,
                  horsepower := some 220 }],
      features := [{ vehicle_id := 7148434824215597763 }],
      scores := [{ vehicle_id := 7148434824215597763 }] }
    (by decide) ⟨rfl, rfl, rfl⟩).1

end KBB
